import Mathlib

set_option linter.unusedVariables false

/-! Verification development for the IRQ dashboard repository.

This file gives a shallow embedding of the CSV row normaliser, the
aggregation logic, the turf (territory) analyser of src/app/page.tsx and the
sheet-proxy API route handlers, and proves/refutes the specification claims
about them.

Modelling conventions:
* A JS `Date` is modelled at civil-day granularity as an integer counting
  days since 1970-01-01 in local time (1970-01-01 is a Thursday, so JS
  `getDay` of day `n` is `(n + 4) % 7`).  The dashboard only builds dates at
  local midnight (or uses an end-of-day bound at whole-month granularity),
  so day granularity is observation-equivalent; likewise the `Math.round`
  in `weeksBetween` only compensates DST drift, which does not exist at day
  granularity.  A JS construct `new Date(y, m, d + k)` applied to the
  components of an existing date is day arithmetic (the constructor
  normalises overflow), and is embedded as integer addition of `k`.
* JS numbers are modelled as exact rationals: every numeral reaching the
  arithmetic comes from the digit/dot/minus cleaned parsers below (no
  exponents, no NaN/Infinity producing operations on the modelled paths).
* `String.prototype.localeCompare` is modelled as code-point lexicographic
  comparison.
* An insertion-ordered JS `Map` is an association list where updating an
  existing key keeps its position and a new key is appended at the end; a
  JS `Set` is a list with insert-if-absent semantics.
-/

namespace IrqDash

/-! ## Date helpers (page.tsx lines 118-154 and JS Date semantics) -/

/-- JS `Date.prototype.getDay`: 0 = Sunday … 6 = Saturday.  Day 0
(1970-01-01) is a Thursday. -/
def getDay (d : ℤ) : ℤ := (d + 4) % 7

/-- `mondayOfWeek` from page.tsx: step back `(getDay + 6) % 7` days to the
Monday of the week containing `d`. -/
def mondayOfWeek (d : ℤ) : ℤ := d - ((getDay d + 6) % 7)

/-- A day that JS reports as Monday. -/
def isMonday (d : ℤ) : Prop := getDay d = 1

instance : DecidablePred isMonday := fun d => by unfold isMonday; infer_instance

/-- `weeksBetween` from page.tsx: whole weeks between the Mondays of the two
weeks (clamped at 0).  At day granularity the difference of two Mondays is an
exact multiple of 7, so JS's `Math.round` is the exact quotient. -/
def weeksBetween (a b : ℤ) : ℤ := max 0 ((mondayOfWeek a - mondayOfWeek b) / 7)

/-- Days-from-civil-date (proleptic Gregorian), floor-division algorithm; this
is the day number JS `new Date(y, m-1, d)` denotes at day granularity. -/
def daysFromCivil (y m d : ℤ) : ℤ :=
  let yy := y - (if m ≤ 2 then 1 else 0)
  let era := yy / 400
  let yoe := yy - era * 400
  let mp := (m + 9) % 12
  let doy := (153 * mp + 2) / 5 + d - 1
  let doe := yoe * 365 + yoe / 4 - yoe / 100 + doy
  era * 146097 + doe - 719468

/-- Civil date (year, month 1-12, day 1-31) of a day number; the inverse
direction of `daysFromCivil`. -/
def civilFromDays (z0 : ℤ) : ℤ × ℤ × ℤ :=
  let z := z0 + 719468
  let era := z / 146097
  let doe := z - era * 146097
  let yoe := (doe - doe / 1460 + doe / 36524 - doe / 146096) / 365
  let y := yoe + era * 400
  let doy := doe - (365 * yoe + yoe / 4 - yoe / 100)
  let mp := (5 * doy + 2) / 153
  let dd := doy - (153 * mp + 2) / 5 + 1
  let mm := mp + (if mp < 10 then 3 else (-9 : ℤ))
  (if mm ≤ 2 then y + 1 else y, mm, dd)

/-- JS `getFullYear`. -/
def yearOf (d : ℤ) : ℤ := (civilFromDays d).1

/-- Month 1..12 of a day number. -/
def monthOf (d : ℤ) : ℤ := (civilFromDays d).2.1

/-- Day-of-month of a day number. -/
def dayOf (d : ℤ) : ℤ := (civilFromDays d).2.2

/-- JS `getMonth` (0-based month index). -/
def getMonth (d : ℤ) : ℤ := monthOf d - 1

/-- JS `new Date(y, monthIndex, day)` at day granularity; the constructor
normalises out-of-range month indices and days. -/
def mkDate (y mIdx day : ℤ) : ℤ :=
  let tm := y * 12 + mIdx
  daysFromCivil (tm / 12) (tm % 12 + 1) 1 + (day - 1)

/-- Left-pad a numeral to two digits, as `String(..).padStart(2, "0")`. -/
def pad2 (n : ℤ) : String := if n < 10 then "0" ++ toString n else toString n

/-- `ym` from page.tsx: the `YYYY-MM` month key of a date. -/
def ym (d : ℤ) : String := toString (yearOf d) ++ "-" ++ pad2 (monthOf d)

/-- `startOfYear` from page.tsx: `new Date(d.getFullYear(), 0, 1)`. -/
def startOfYear (d : ℤ) : ℤ := mkDate (yearOf d) 0 1

/-- `endOfMonth` from page.tsx: `new Date(y, m + 1, 0, 23:59:59.999)`, i.e.
the last civil day of `d`'s month (day granularity swallows the time). -/
def endOfMonth (d : ℤ) : ℤ := mkDate (yearOf d) (getMonth d + 1) 0

/-- `weekKey` from page.tsx: `YYYY-MM-DD` of the Monday of `d`'s week. -/
def weekKey (d : ℤ) : String :=
  let m := mondayOfWeek d
  toString (yearOf m) ++ "-" ++ pad2 (monthOf m) ++ "-" ++ pad2 (dayOf m)

/-- `new Date(y, m, 1)` from a date's own components: first of its month. -/
def firstOfMonth (d : ℤ) : ℤ := mkDate (yearOf d) (getMonth d) 1

theorem getDay_mondayOfWeek (d : ℤ) : getDay (mondayOfWeek d) = 1 := by
  unfold getDay mondayOfWeek getDay
  omega

theorem isMonday_mondayOfWeek (d : ℤ) : isMonday (mondayOfWeek d) :=
  getDay_mondayOfWeek d

theorem mondayOfWeek_eq_self {d : ℤ} (h : isMonday d) : mondayOfWeek d = d := by
  unfold isMonday getDay at h
  unfold mondayOfWeek getDay
  omega

theorem mondayOfWeek_idem (d : ℤ) :
    mondayOfWeek (mondayOfWeek d) = mondayOfWeek d :=
  mondayOfWeek_eq_self (isMonday_mondayOfWeek d)

theorem mondayOfWeek_sub_21 (d : ℤ) :
    mondayOfWeek (d - 21) = mondayOfWeek d - 21 := by
  unfold mondayOfWeek getDay
  omega

theorem mondayOfWeek_le (d : ℤ) : mondayOfWeek d ≤ d := by
  unfold mondayOfWeek getDay
  omega

/-! ## Code-point string comparison (model of `localeCompare`) -/

/-- Model of `a.localeCompare(b)`: code-point lexicographic sign. -/
def localeCompare (a b : String) : ℤ :=
  if a.data < b.data then -1 else if b.data < a.data then 1 else 0

theorem localeCompare_lt_iff {a b : String} :
    localeCompare a b < 0 ↔ a.data < b.data := by
  unfold localeCompare
  rcases lt_trichotomy a.data b.data with h | h | h
  · simp [h]
  · simp [h, lt_irrefl]
  · simp [h, asymm h]

theorem localeCompare_zero_iff {a b : String} :
    localeCompare a b = 0 ↔ a = b := by
  unfold localeCompare
  rcases lt_trichotomy a.data b.data with h | h | h
  · simp only [if_pos h]
    constructor
    · intro hh; exact absurd hh (by norm_num)
    · rintro rfl; exact absurd h (lt_irrefl _)
  · simp [h, lt_irrefl, String.ext_iff]
  · simp only [if_neg (asymm h), if_pos h]
    constructor
    · intro hh; exact absurd hh (by norm_num)
    · rintro rfl; exact absurd h (lt_irrefl _)

theorem localeCompare_nonpos_iff {a b : String} :
    localeCompare a b ≤ 0 ↔ a.data ≤ b.data := by
  constructor
  · intro h
    rcases lt_or_eq_of_le h with h' | h'
    · exact le_of_lt (localeCompare_lt_iff.mp h')
    · exact le_of_eq (congrArg String.data (localeCompare_zero_iff.mp h'))
  · intro h
    rcases lt_or_eq_of_le h with h' | h'
    · exact le_of_lt (localeCompare_lt_iff.mpr h')
    · exact le_of_eq (localeCompare_zero_iff.mpr (String.ext h'))

theorem localeCompare_self (a : String) : localeCompare a a = 0 :=
  localeCompare_zero_iff.mpr rfl

theorem localeCompare_le_trans {a b c : String}
    (h1 : localeCompare a b ≤ 0) (h2 : localeCompare b c ≤ 0) :
    localeCompare a c ≤ 0 :=
  localeCompare_nonpos_iff.mpr
    (le_trans (localeCompare_nonpos_iff.mp h1) (localeCompare_nonpos_iff.mp h2))

theorem localeCompare_total (a b : String) :
    localeCompare a b ≤ 0 ∨ localeCompare b a ≤ 0 := by
  rcases le_total a.data b.data with h | h
  · exact Or.inl (localeCompare_nonpos_iff.mpr h)
  · exact Or.inr (localeCompare_nonpos_iff.mpr h)

theorem localeCompare_lt_of_lt_of_le {a b c : String}
    (h1 : localeCompare a b < 0) (h2 : localeCompare b c ≤ 0) :
    localeCompare a c < 0 :=
  localeCompare_lt_iff.mpr
    (lt_of_lt_of_le (localeCompare_lt_iff.mp h1) (localeCompare_nonpos_iff.mp h2))

/-! ## JS containers: insertion-ordered Map and Set -/

variable {β : Type}

/-- JS `Map.prototype.set`: update an existing key in place, append a new
key at the end. -/
def mapSet (k : String) (v : β) : List (String × β) → List (String × β)
  | [] => [(k, v)]
  | (k2, w) :: rest =>
      if k2 = k then (k2, v) :: rest else (k2, w) :: mapSet k v rest

/-- JS `Map.prototype.get` (as an `Option`). -/
def mapGet (k : String) : List (String × β) → Option β
  | [] => none
  | (k2, w) :: rest => if k2 = k then some w else mapGet k rest

/-- JS `Set.prototype.add`: append if absent. -/
def setAdd (s : List String) (x : String) : List String :=
  if x ∈ s then s else s ++ [x]

/-- JS `new Set(list)`: first-occurrence deduplication, in order. -/
def jsSetOf (l : List String) : List String := l.foldl setAdd []

theorem mapGet_mapSet_self (k : String) (v : β) (m : List (String × β)) :
    mapGet k (mapSet k v m) = some v := by
  induction m with
  | nil => simp [mapSet, mapGet]
  | cons hd tl ih =>
      obtain ⟨k2, w⟩ := hd
      by_cases h : k2 = k <;> simp [mapSet, mapGet, h, ih]

theorem mapGet_mapSet_other {k k' : String} (h : k' ≠ k) (v : β)
    (m : List (String × β)) : mapGet k' (mapSet k v m) = mapGet k' m := by
  have hne : k ≠ k' := fun hh => h hh.symm
  induction m with
  | nil => simp [mapSet, mapGet, hne]
  | cons hd tl ih =>
      obtain ⟨k2, w⟩ := hd
      by_cases h2 : k2 = k
      · subst h2
        simp [mapSet, mapGet, hne]
      · by_cases h3 : k2 = k'
        · subst h3
          simp [mapSet, mapGet, h2, hne.symm]
        · simp [mapSet, mapGet, h2, h3, ih]

/-- Keys of an association list. -/
def mapKeys (m : List (String × β)) : List String := m.map Prod.fst

theorem mapKeys_mapSet (k : String) (v : β) (m : List (String × β)) :
    mapKeys (mapSet k v m) =
      if k ∈ mapKeys m then mapKeys m else mapKeys m ++ [k] := by
  induction m with
  | nil => simp [mapSet, mapKeys]
  | cons hd tl ih =>
      obtain ⟨k2, w⟩ := hd
      by_cases h : k2 = k
      · subst h
        simp [mapSet, mapKeys]
      · have hne : ¬(k = k2) := fun hh => h hh.symm
        simp only [mapSet, if_neg h, mapKeys, List.map_cons] at ih ⊢
        rw [ih]
        by_cases hmem : k ∈ List.map Prod.fst tl <;>
          simp [mapKeys, hmem, hne, List.mem_cons]

theorem nodup_mapKeys_mapSet (k : String) (v : β) {m : List (String × β)}
    (h : (mapKeys m).Nodup) : (mapKeys (mapSet k v m)).Nodup := by
  rw [mapKeys_mapSet]
  split
  · exact h
  · rename_i hmem
    simpa [List.nodup_append] using ⟨h, hmem⟩

theorem mapGet_eq_none {k : String} {m : List (String × β)} :
    mapGet k m = none ↔ k ∉ mapKeys m := by
  induction m with
  | nil => simp [mapGet, mapKeys]
  | cons hd tl ih =>
      obtain ⟨k2, w⟩ := hd
      by_cases h : k2 = k
      · subst h
        simp [mapGet, mapKeys]
      · have hne : ¬(k = k2) := fun hh => h hh.symm
        simp [mapGet, mapKeys, h, List.mem_cons, hne, ih]

theorem mem_of_mapGet_eq_some {k : String} {v : β} {m : List (String × β)}
    (h : mapGet k m = some v) : (k, v) ∈ m := by
  induction m with
  | nil => simp [mapGet] at h
  | cons hd tl ih =>
      obtain ⟨k2, w⟩ := hd
      by_cases h2 : k2 = k
      · subst h2
        simp [mapGet] at h
        simp [h]
      · simp [mapGet, h2] at h
        exact List.mem_cons_of_mem _ (ih h)

theorem mapGet_eq_some_of_mem_of_nodup {k : String} {v : β}
    {m : List (String × β)} (hn : (mapKeys m).Nodup) (h : (k, v) ∈ m) :
    mapGet k m = some v := by
  induction m with
  | nil => simp at h
  | cons hd tl ih =>
      obtain ⟨k2, w⟩ := hd
      rw [mapKeys, List.map_cons, List.nodup_cons] at hn
      rcases List.mem_cons.mp h with h1 | h1
      · rw [Prod.mk.injEq] at h1
        obtain ⟨rfl, rfl⟩ := h1
        simp [mapGet]
      · have hk : k2 ≠ k := by
          rintro rfl
          exact hn.1 (List.mem_map.mpr ⟨(k2, v), h1, rfl⟩)
        simp only [mapGet, if_neg hk]
        exact ih hn.2 h1

/-! ## Character/string utilities used by the normaliser (page.tsx 307-367) -/

/-- JS whitespace class `\s` (also used by `String.prototype.trim`),
restricted to the characters that occur in CSV cells; note JS counts the
byte-order mark U+FEFF and the no-break space U+00A0 as whitespace. -/
def isWS (c : Char) : Bool :=
  c = ' ' || c = '\t' || c = '\n' || c = '\r' || c = '\u000C' ||
  c = '\uFEFF' || c = '\u00A0'

/-- JS `String.prototype.trim`. -/
def jsTrim (s : String) : String :=
  String.mk (((s.data.dropWhile isWS).reverse.dropWhile isWS).reverse)

/-- Collapse maximal whitespace runs to a single space
(`replace(/\s+/g, " ")`); `prevWS` records whether the previous character
belonged to a run already replaced. -/
def collapseWSGo (prevWS : Bool) : List Char → List Char
  | [] => []
  | c :: rest =>
      if isWS c then
        (if prevWS then collapseWSGo true rest else ' ' :: collapseWSGo true rest)
      else c :: collapseWSGo false rest

/-- Strip one leading byte-order mark (`replace(/^﻿/, "")`). -/
def stripBOM : List Char → List Char
  | [] => []
  | c :: rest => if c = '\uFEFF' then rest else c :: rest

/-- `canon` from `normalizeRow`: lower-case, strip BOM, collapse whitespace,
trim. -/
def canon (s : String) : String :=
  jsTrim (String.mk (collapseWSGo false (stripBOM (s.data.map Char.toLower))))

/-- Lookup in the object built by `Object.fromEntries` (later duplicate keys
overwrite earlier ones), with `undefined`/missing collapsed to `""` — every
use in the source goes through a falsiness check, for which the two agree. -/
def lookupLast (k : String) (l : List (String × String)) : Option String :=
  (l.reverse.find? (fun p => p.1 = k)).map Prod.snd

/-- `lower[key]` of `normalizeRow` (keys canonicalised, `undefined → ""`). -/
def jsGet (r : List (String × String)) (k : String) : String :=
  (lookupLast k (r.map (fun p => (canon p.1, p.2)))).getD ""

/-- JS `a || b` on strings (`""` is the only falsy string). -/
def jsOrS (a b : String) : String := if a = "" then b else a

/-! ## Month / date parsing (page.tsx 73-135) -/

def isAsciiAlpha (c : Char) : Bool :=
  ('a' ≤ c && c ≤ 'z') || ('A' ≤ c && c ≤ 'Z')

def isDateSep (c : Char) : Bool := c = '-' || c = '/'

/-- Numeric value of a digit string. -/
def digitsVal (cs : List Char) : ℕ :=
  cs.foldl (fun a c => a * 10 + (c.toNat - 48)) 0

/-- `monthNameToIndex`: 3-letter lower-cased month prefix to 1..12. -/
def monthNameToIndex (name : String) : Option ℕ :=
  let id := String.mk ((name.data.take 3).map Char.toLower)
  if id = "jan" then some 1 else if id = "feb" then some 2 else
  if id = "mar" then some 3 else if id = "apr" then some 4 else
  if id = "may" then some 5 else if id = "jun" then some 6 else
  if id = "jul" then some 7 else if id = "aug" then some 8 else
  if id = "sep" then some 9 else if id = "oct" then some 10 else
  if id = "nov" then some 11 else if id = "dec" then some 12 else none

/-- Matcher for `^([A-Za-z]+)\s+(\d{4})$` (the character classes are disjoint,
so greedy matching is the unique decomposition). -/
def matchAlphaYear (cs : List Char) : Option (List Char × List Char) :=
  let letters := cs.takeWhile isAsciiAlpha
  let r1 := cs.dropWhile isAsciiAlpha
  let sp := r1.takeWhile isWS
  let yd := r1.dropWhile isWS
  if letters.length ≥ 1 && sp.length ≥ 1 && yd.length = 4 && yd.all Char.isDigit
  then some (letters, yd) else none

/-- Matcher for `^(\d{1,2})[-\/]?(\d{4})$`, returning (raw month, year). -/
def matchMY (cs : List Char) : Option (ℕ × ℕ) :=
  match cs with
  | [a, b, c, d, e, f, g] =>
      if a.isDigit && b.isDigit && isDateSep c &&
         [d, e, f, g].all Char.isDigit
      then some (digitsVal [a, b], digitsVal [d, e, f, g]) else none
  | [a, b, c, d, e, f] =>
      if a.isDigit && b.isDigit && [c, d, e, f].all Char.isDigit
      then some (digitsVal [a, b], digitsVal [c, d, e, f])
      else if a.isDigit && isDateSep b && [c, d, e, f].all Char.isDigit
      then some (digitsVal [a], digitsVal [c, d, e, f]) else none
  | [a, b, c, d, e] =>
      if a.isDigit && [b, c, d, e].all Char.isDigit
      then some (digitsVal [a], digitsVal [b, c, d, e]) else none
  | _ => none

/-- Matcher for `^(\d{4})[-\/]?(\d{1,2})$`, returning (year, raw month). -/
def matchYM (cs : List Char) : Option (ℕ × ℕ) :=
  match cs with
  | [a, b, c, d, e, f, g] =>
      if [a, b, c, d].all Char.isDigit && isDateSep e && f.isDigit && g.isDigit
      then some (digitsVal [a, b, c, d], digitsVal [f, g]) else none
  | [a, b, c, d, e, f] =>
      if [a, b, c, d].all Char.isDigit && e.isDigit && f.isDigit
      then some (digitsVal [a, b, c, d], digitsVal [e, f])
      else if [a, b, c, d].all Char.isDigit && isDateSep e && f.isDigit
      then some (digitsVal [a, b, c, d], digitsVal [f]) else none
  | [a, b, c, d, e] =>
      if [a, b, c, d].all Char.isDigit && e.isDigit
      then some (digitsVal [a, b, c, d], digitsVal [e]) else none
  | _ => none

/-- Clamp a raw month numeral to 1..12 (`Math.max(1, Math.min(12, m))`). -/
def clampMonth (m : ℕ) : ℤ := max 1 (min 12 (m : ℤ))

/-- `parseMonthKey` from page.tsx: accepts `"JUNE 2025"`, `"06-2025"`,
`"2025-06"` (and the separator-free/slash variants its regexes allow). -/
def parseMonthKey (s : String) : Option (ℤ × ℤ) :=
  if s = "" then none else
  let str := jsTrim s
  let viaName : Option (ℤ × ℤ) :=
    match matchAlphaYear str.data with
    | some (letters, yd) =>
        match monthNameToIndex (String.mk letters) with
        | some mm => if digitsVal yd ≠ 0 then some (digitsVal yd, mm) else none
        | none => none
    | none => none
  match viaName with
  | some p => some p
  | none =>
      match matchMY str.data with
      | some (mraw, y) => some ((y : ℤ), clampMonth mraw)
      | none =>
          match matchYM str.data with
          | some (y, mraw) => some ((y : ℤ), clampMonth mraw)
          | none => none

/-- Matcher for `^(\d{1,2})[\/\-](\d{1,2})[\/\-](\d{4})$`. -/
def matchDMY (cs : List Char) : Option (ℕ × ℕ × ℕ) :=
  let d1 := cs.takeWhile Char.isDigit
  let r1 := cs.dropWhile Char.isDigit
  if d1.length = 0 || 2 < d1.length then none else
  match r1 with
  | s1 :: r2 =>
      if !isDateSep s1 then none else
      let d2 := r2.takeWhile Char.isDigit
      let r3 := r2.dropWhile Char.isDigit
      if d2.length = 0 || 2 < d2.length then none else
      match r3 with
      | s2 :: r4 =>
          if isDateSep s2 && r4.length = 4 && r4.all Char.isDigit
          then some (digitsVal d1, digitsVal d2, digitsVal r4) else none
      | [] => none
  | [] => none

/-- `parseDDMMYYYY` from page.tsx; the `new Date(yy, mm - 1, dd)` constructor
normalises out-of-range fields, so the `isNaN` guard never fires. -/
def parseDDMMYYYY (s : String) : Option ℤ :=
  if s = "" then none else
  match matchDMY (jsTrim s).data with
  | some (dd, mm, yy) => some (mkDate (yy : ℤ) ((mm : ℤ) - 1) (dd : ℤ))
  | none => none

/-! ## Numeric normalisation `normNum` (page.tsx 346-353) -/

/-- Test of `/,\d{1,2}$/` (a comma followed by one or two digits ending the
string), decided on the reversed character list. -/
def testCommaDec1 (s : String) : Bool :=
  match s.data.reverse with
  | a :: ',' :: _ => a.isDigit
  | a :: b :: ',' :: _ => a.isDigit && b.isDigit
  | _ => false

/-- Test of `/\d+,\d{1,2}$/` (at least one digit, a comma, then one or two
digits ending the string). -/
def testCommaDec2 (s : String) : Bool :=
  match s.data.reverse with
  | a :: ',' :: c :: _ => a.isDigit && c.isDigit
  | a :: b :: ',' :: c :: _ => a.isDigit && b.isDigit && c.isDigit
  | _ => false

/-- `replace(/[^0-9.-]/g, "")`. -/
def keepNumChars (cs : List Char) : List Char :=
  cs.filter (fun c => c.isDigit || c = '.' || c = '-')

/-- JS `parseFloat` on a cleaned string (only digits, `.`, `-` remain, so no
exponents or infinities are possible): optional minus sign, longest digit
prefix, optional fraction; `none` models `NaN`. -/
def parseFloatQ (cs : List Char) : Option ℚ :=
  let neg := match cs with | '-' :: _ => true | _ => false
  let cs1 := match cs with | '-' :: t => t | _ => cs
  let ip := cs1.takeWhile Char.isDigit
  let r1 := cs1.dropWhile Char.isDigit
  let fp := match r1 with | '.' :: t => t.takeWhile Char.isDigit | _ => []
  if ip.length = 0 && fp.length = 0 then none
  else
    let mag : ℚ := (digitsVal ip : ℚ) + (digitsVal fp : ℚ) / ((10 : ℚ) ^ fp.length)
    some (if neg then -mag else mag)

/-- The cleaned string `normNum` hands to `parseFloat`. -/
def normNumCleaned (s : String) : List Char :=
  let hasCommaDec := testCommaDec1 s || testCommaDec2 s
  let base :=
    if hasCommaDec then
      (s.data.filter (fun c => c ≠ '.')).map (fun c => if c = ',' then '.' else c)
    else s.data
  keepNumChars base

/-- `normNum` from `normalizeRow`: locale-tolerant numeric parsing; anything
unparseable yields 0. -/
def normNum (s0 : String) : ℚ :=
  let s := jsTrim s0
  if s = "" then 0 else
  match parseFloatQ (normNumCleaned s) with
  | some q => q
  | none => 0

/-! ## The row normaliser (page.tsx 307-367) -/

structure SalesRecord where
  rep : String
  product : String
  date : ℤ
  amount : ℚ
  profit : ℚ
  commission : ℚ
deriving Repr, DecidableEq

/-- The trimmed rep name (`String(lower["sales rep name"] || lower["rep"] || "").trim()`). -/
def repOf (r : List (String × String)) : String :=
  jsTrim (jsOrS (jsGet r "sales rep name") (jsOrS (jsGet r "rep") ""))

/-- The month-cell rewrite `rawMonth.replace(/[\.|\/]/g, "-").replace(/\s+/, "-")`
(the second replace has no `g` flag: only the first whitespace run). -/
def replaceFirstWSRun : List Char → List Char
  | [] => []
  | c :: rest =>
      if isWS c then '-' :: rest.dropWhile isWS else c :: replaceFirstWSRun rest

def altMonth (rawMonth : String) : String :=
  String.mk (replaceFirstWSRun
    (rawMonth.data.map (fun c => if c = '.' || c = '|' || c = '/' then '-' else c)))

/-- The resolved first-of-month date of a row, or `none`: month column via
`parseMonthKey` (raw, then rewritten), else the `date` column via
`parseDDMMYYYY` or the environment's generic `new Date(string)` parse
(`jsDateParse`), truncated to the first of its month. -/
def resolveDate (jsDateParse : String → Option ℤ) (r : List (String × String)) :
    Option ℤ :=
  let rawMonth := jsTrim (jsGet r "month")
  let mk0 :=
    match parseMonthKey rawMonth with
    | some x => some x
    | none => parseMonthKey (altMonth rawMonth)
  match mk0 with
  | some (y, m) => some (mkDate y (m - 1) 1)
  | none =>
      if jsGet r "date" ≠ "" then
        match parseDDMMYYYY (jsGet r "date") with
        | some d => some (firstOfMonth d)
        | none =>
            match jsDateParse (jsGet r "date") with
            | some d => some (firstOfMonth d)
            | none => none
      else none

/-- `normalizeRow` from page.tsx: `none` models the `null` (dropped row)
result.  `jsDateParse` abstracts the engine-defined generic `new Date(string)`
parse used as a last resort. -/
def normalizeRow (jsDateParse : String → Option ℤ)
    (r : List (String × String)) : Option SalesRecord :=
  let rep := repOf r
  if rep = "" then none else
  let product := jsOrS (jsTrim (jsOrS (jsGet r "product sold")
    (jsOrS (jsGet r "product") ""))) "(Unspecified)"
  match resolveDate jsDateParse r with
  | none => none
  | some date =>
      some { rep := rep, product := product, date := date,
             amount := normNum (jsGet r "total sales price"),
             commission := normNum (jsGet r "sales rep com"),
             profit := normNum (jsGet r "profit nik") }

/-! ## Stable sort (model of `Array.prototype.sort`)

JS `sort(cmp)` is a stable sort ordering `a` before `b` when `cmp a b < 0`.
A stable sort with respect to the total preorder `le a b := cmp a b ≤ 0` is
uniquely determined by that preorder, so insertion sort below is
observation-equivalent to the engine's sort (and, unlike well-founded
definitions, evaluates in the kernel). -/

section StableSort

variable {α : Type} (le : α → α → Bool)

/-- Insert `x` in front of the first element it is `le`-below-or-tied with;
ties keep the original (stable) order since `x` comes from earlier in the
input. -/
def stableInsert (x : α) : List α → List α
  | [] => [x]
  | y :: ys => if le x y then x :: y :: ys else y :: stableInsert x ys

/-- Stable insertion sort. -/
def jsSortBy (l : List α) : List α := l.foldr (stableInsert le) []

theorem stableInsert_perm (x : α) (l : List α) :
    (stableInsert le x l).Perm (x :: l) := by
  induction l with
  | nil => exact List.Perm.refl _
  | cons y ys ih =>
      unfold stableInsert
      split
      · exact List.Perm.refl _
      · exact ((ih.cons y).trans (List.Perm.swap x y ys))

theorem jsSortBy_perm (l : List α) : (jsSortBy le l).Perm l := by
  induction l with
  | nil => exact List.Perm.refl _
  | cons x xs ih =>
      exact (stableInsert_perm le x (jsSortBy le xs)).trans (ih.cons x)

theorem mem_jsSortBy {x : α} {l : List α} : x ∈ jsSortBy le l ↔ x ∈ l :=
  (jsSortBy_perm le l).mem_iff

theorem sorted_stableInsert
    (htrans : ∀ a b c, le a b = true → le b c = true → le a c = true)
    (htotal : ∀ a b, le a b = true ∨ le b a = true) (x : α) (l : List α)
    (h : List.Pairwise (fun a b => le a b = true) l) :
    List.Pairwise (fun a b => le a b = true) (stableInsert le x l) := by
  induction l with
  | nil => simp [stableInsert]
  | cons y ys ih =>
      rcases List.pairwise_cons.mp h with ⟨hy, hys⟩
      unfold stableInsert
      split
      · rename_i hxy
        refine List.Pairwise.cons ?_ h
        intro b hb
        rcases List.mem_cons.mp hb with rfl | hb
        · exact hxy
        · exact htrans x y b hxy (hy b hb)
      · rename_i hxy
        have hyx : le y x = true := by
          rcases htotal x y with hx | hx
          · exact absurd hx hxy
          · exact hx
        refine List.Pairwise.cons ?_ (ih hys)
        intro b hb
        rcases (stableInsert_perm le x ys).mem_iff.mp hb with hb2
        rcases List.mem_cons.mp hb2 with rfl | hb2
        · exact hyx
        · exact hy b hb2

theorem sorted_jsSortBy
    (htrans : ∀ a b c, le a b = true → le b c = true → le a c = true)
    (htotal : ∀ a b, le a b = true ∨ le b a = true) (l : List α) :
    List.Pairwise (fun a b => le a b = true) (jsSortBy le l) := by
  induction l with
  | nil => simp [jsSortBy]
  | cons x xs ih => exact sorted_stableInsert le htrans htotal x _ ih

end StableSort

/-! ## Generic characterisation of the `Map`-building folds

Every aggregation loop of the dashboard has the shape
`for e of es: if (!m.has(key e)) m.set(key e, dflt e); upd(m.get(key e), e)`,
i.e. a fold of `mapSet (key e) (upd e ((mapGet (key e) m).getD (dflt e)))`.
`mapFold` abstracts it; the lemmas characterise lookups, keys and key
uniqueness of the result. -/

section MapFold

variable {α γ : Type}

def mapFold (key : α → String) (upd : α → γ → γ) (dflt : α → γ)
    (m0 : List (String × γ)) (es : List α) : List (String × γ) :=
  es.foldl
    (fun m e => mapSet (key e) (upd e ((mapGet (key e) m).getD (dflt e))) m) m0

/-- `Map` grouping used by `repRows`/`turfSuggestions` etc.:
`if (!m.has(k)) m.set(k, []); m.get(k).push(x)`. -/
def groupPush {δ : Type} (k : String) (x : δ) :
    List (String × List δ) → List (String × List δ)
  | [] => [(k, [x])]
  | (k2, l) :: rest =>
      if k2 = k then (k2, l ++ [x]) :: rest else (k2, l) :: groupPush k x rest

theorem mapGet_mapFold_of_some (key : α → String) (upd : α → γ → γ)
    (dflt : α → γ) (k : String) :
    ∀ (es : List α) (m0 : List (String × γ)) (b0 : γ),
      mapGet k m0 = some b0 →
      mapGet k (mapFold key upd dflt m0 es) =
        some ((es.filter (fun e => key e = k)).foldl (fun b e => upd e b) b0) := by
  intro es
  induction es with
  | nil => intro m0 b0 h; simpa [mapFold] using h
  | cons e tl ih =>
      intro m0 b0 h
      by_cases hk : key e = k
      · have h1 : mapGet k (mapSet (key e)
            (upd e ((mapGet (key e) m0).getD (dflt e))) m0) = some (upd e b0) := by
          subst hk; rw [mapGet_mapSet_self]; rw [h]; rfl
        have := ih (mapSet (key e) (upd e ((mapGet (key e) m0).getD (dflt e))) m0)
          (upd e b0) h1
        simp only [mapFold, List.foldl_cons] at this ⊢
        rw [this, List.filter_cons, if_pos (by simpa using hk)]
        rfl
      · have h1 : mapGet k (mapSet (key e)
            (upd e ((mapGet (key e) m0).getD (dflt e))) m0) = some b0 := by
          rw [mapGet_mapSet_other (fun hh => hk hh.symm), h]
        have := ih _ b0 h1
        simp only [mapFold, List.foldl_cons] at this ⊢
        rw [this, List.filter_cons, if_neg (by simpa using hk)]

theorem mapGet_mapFold_of_none (key : α → String) (upd : α → γ → γ)
    (dflt : α → γ) (k : String) :
    ∀ (es : List α) (m0 : List (String × γ)),
      mapGet k m0 = none →
      mapGet k (mapFold key upd dflt m0 es) =
        match es.filter (fun e => key e = k) with
        | [] => none
        | e0 :: fs => some (fs.foldl (fun b e => upd e b) (upd e0 (dflt e0))) := by
  intro es
  induction es with
  | nil => intro m0 h; simpa [mapFold] using h
  | cons e tl ih =>
      intro m0 h
      by_cases hk : key e = k
      · have h1 : mapGet k (mapSet (key e)
            (upd e ((mapGet (key e) m0).getD (dflt e))) m0) =
              some (upd e (dflt e)) := by
          subst hk; rw [mapGet_mapSet_self]; rw [h]; rfl
        have := mapGet_mapFold_of_some key upd dflt k tl _ _ h1
        simp only [mapFold, List.foldl_cons] at this ⊢
        rw [this, List.filter_cons, if_pos (by simpa using hk)]
      · have h1 : mapGet k (mapSet (key e)
            (upd e ((mapGet (key e) m0).getD (dflt e))) m0) = none := by
          rw [mapGet_mapSet_other (fun hh => hk hh.symm), h]
        have := ih _ h1
        simp only [mapFold, List.foldl_cons] at this ⊢
        rw [this, List.filter_cons, if_neg (by simpa using hk)]

theorem mapKeys_mapSet_eq_setAdd (k : String) (v : γ) (m : List (String × γ)) :
    mapKeys (mapSet k v m) = setAdd (mapKeys m) k := by
  rw [mapKeys_mapSet, setAdd]

theorem mapKeys_mapFold (key : α → String) (upd : α → γ → γ) (dflt : α → γ) :
    ∀ (es : List α) (m0 : List (String × γ)),
      mapKeys (mapFold key upd dflt m0 es) =
        (es.map key).foldl setAdd (mapKeys m0) := by
  intro es
  induction es with
  | nil => intro m0; simp [mapFold]
  | cons e tl ih =>
      intro m0
      simp only [mapFold, List.foldl_cons, List.map_cons] at ih ⊢
      rw [ih, mapKeys_mapSet_eq_setAdd]

theorem nodup_setAdd {s : List String} (h : s.Nodup) (x : String) :
    (setAdd s x).Nodup := by
  unfold setAdd
  split
  · exact h
  · rename_i hx
    simpa [List.nodup_append] using ⟨h, hx⟩

theorem mem_setAdd {s : List String} {x y : String} :
    y ∈ setAdd s x ↔ y ∈ s ∨ y = x := by
  unfold setAdd
  split
  · rename_i hx
    constructor
    · exact Or.inl
    · rintro (h | rfl)
      · exact h
      · exact hx
  · simp

theorem nodup_foldl_setAdd (l : List String) :
    ∀ s : List String, s.Nodup → (l.foldl setAdd s).Nodup := by
  induction l with
  | nil => intro s h; exact h
  | cons x tl ih => intro s h; exact ih _ (nodup_setAdd h x)

theorem mem_foldl_setAdd (l : List String) :
    ∀ (s : List String) (y : String), y ∈ l.foldl setAdd s ↔ y ∈ s ∨ y ∈ l := by
  induction l with
  | nil => intro s y; simp
  | cons x tl ih =>
      intro s y
      rw [List.foldl_cons, ih]
      rw [mem_setAdd]
      constructor
      · rintro ((h | rfl) | h)
        · exact Or.inl h
        · exact Or.inr (List.mem_cons_self _ _)
        · exact Or.inr (List.mem_cons_of_mem _ h)
      · rintro (h | h)
        · exact Or.inl (Or.inl h)
        · rcases List.mem_cons.mp h with rfl | h
          · exact Or.inl (Or.inr rfl)
          · exact Or.inr h

theorem nodup_jsSetOf (l : List String) : (jsSetOf l).Nodup :=
  nodup_foldl_setAdd l [] List.nodup_nil

theorem mem_jsSetOf {l : List String} {y : String} :
    y ∈ jsSetOf l ↔ y ∈ l := by
  unfold jsSetOf
  rw [mem_foldl_setAdd]
  simp

theorem nodup_mapKeys_mapFold (key : α → String) (upd : α → γ → γ)
    (dflt : α → γ) (es : List α) :
    (mapKeys (mapFold key upd dflt [] es)).Nodup := by
  rw [mapKeys_mapFold]
  exact nodup_foldl_setAdd _ _ (by simp [mapKeys])

theorem mem_mapKeys_mapFold (key : α → String) (upd : α → γ → γ)
    (dflt : α → γ) (es : List α) (k : String) :
    k ∈ mapKeys (mapFold key upd dflt [] es) ↔ k ∈ es.map key := by
  rw [mapKeys_mapFold, mem_foldl_setAdd]
  simp [mapKeys]

theorem toFinset_foldl_setAdd (l : List String) :
    ∀ s : List String, (l.foldl setAdd s).toFinset = s.toFinset ∪ l.toFinset := by
  induction l with
  | nil => intro s; simp
  | cons x tl ih =>
      intro s
      rw [List.foldl_cons, ih]
      ext y
      simp only [Finset.mem_union, List.mem_toFinset, mem_setAdd, List.mem_cons]
      tauto

theorem length_jsSetOf_eq_dedup (l : List String) :
    (jsSetOf l).length = l.dedup.length := by
  have h1 : (jsSetOf l).toFinset = l.toFinset := by
    unfold jsSetOf
    rw [toFinset_foldl_setAdd]
    simp
  have h2 := List.toFinset_card_of_nodup (nodup_jsSetOf l)
  rw [← h2, h1, List.card_toFinset]

theorem foldl_append_singleton {δ : Type} (fs : List δ) :
    ∀ init : List δ, fs.foldl (fun b e => b ++ [e]) init = init ++ fs := by
  induction fs with
  | nil => intro init; simp
  | cons e tl ih => intro init; simp [ih]

theorem groupPush_eq_mapSet {δ : Type} (k : String) (x : δ)
    (m : List (String × List δ)) :
    groupPush k x m = mapSet k ((mapGet k m).getD [] ++ [x]) m := by
  induction m with
  | nil => simp [groupPush, mapSet, mapGet]
  | cons hd tl ih =>
      obtain ⟨k2, l⟩ := hd
      by_cases h : k2 = k <;> simp [groupPush, mapSet, mapGet, h, ih]

theorem foldl_groupPush_eq_mapFold {δ : Type} (key : δ → String)
    (es : List δ) (m0 : List (String × List δ)) :
    es.foldl (fun m e => groupPush (key e) e m) m0 =
      mapFold key (fun e b => b ++ [e]) (fun _ => []) m0 es := by
  unfold mapFold
  induction es generalizing m0 with
  | nil => rfl
  | cons e tl ih =>
      simp only [List.foldl_cons]
      rw [groupPush_eq_mapSet, ih]

/-- Lookup characterisation of a `groupPush` fold: the group of `k` is the
sublist of elements keyed `k`, in order. -/
theorem mapGet_groupPush_fold {δ : Type} (key : δ → String) (es : List δ)
    (k : String) :
    mapGet k (es.foldl (fun m e => groupPush (key e) e m) []) =
      match es.filter (fun e => key e = k) with
      | [] => none
      | fs => some fs := by
  rw [foldl_groupPush_eq_mapFold]
  have := mapGet_mapFold_of_none key (fun e b => b ++ [e]) (fun _ => []) k es []
    (by simp [mapGet])
  rw [this]
  cases h : es.filter (fun e => key e = k) with
  | nil => rfl
  | cons e0 fs => simp [foldl_append_singleton]

end MapFold

/-! ## Aggregator (page.tsx 369-645) -/

/-- The derived time context the aggregation memos close over
(page.tsx 371-382): `thisMonthKey = ym(contextDate)`,
`prevMonthKey = ym(new Date(y, m - 1, 1))`, `ytdStart = startOfYear`,
`ytdEnd = live ? now : endOfMonth(contextDate)`. -/
structure AggCtx where
  thisMonthKey : String
  prevMonthKey : String
  ytdStart : ℤ
  ytdEnd : ℤ
  contextDate : ℤ
  live : Bool
deriving Repr, DecidableEq

/-- JS `x || y` on numbers (`0` is the falsy number; the comparator operands
here are never `NaN`). -/
def jsOrQ (x y : ℚ) : ℚ := if x = 0 then y else x

/-- Accumulator of the `company` fold (page.tsx 386-417). -/
structure CompanyAcc where
  mSalesAmt : ℚ
  ySalesAmt : ℚ
  mProfit : ℚ
  yProfit : ℚ
  mSalesCount : ℕ
  ySalesCount : ℕ
  prevMonthSalesAmt : ℚ
  monthlyByRep : List (String × ℕ)
deriving Repr, DecidableEq

def companyAcc0 : CompanyAcc := ⟨0, 0, 0, 0, 0, 0, 0, []⟩

def companyStep (ctx : AggCtx) (acc : CompanyAcc) (r : SalesRecord) :
    CompanyAcc :=
  let key := ym r.date
  let inMonth := key = ctx.thisMonthKey
  let inPrev := key = ctx.prevMonthKey
  let inYtd := ctx.ytdStart ≤ r.date ∧ r.date ≤ ctx.ytdEnd
  let acc :=
    if inMonth then
      { acc with
        mSalesAmt := acc.mSalesAmt + r.amount,
        mProfit := acc.mProfit + r.profit,
        mSalesCount := acc.mSalesCount + 1,
        monthlyByRep :=
          mapSet r.rep ((mapGet r.rep acc.monthlyByRep).getD 0 + 1)
            acc.monthlyByRep }
    else acc
  let acc :=
    if inPrev then
      { acc with prevMonthSalesAmt := acc.prevMonthSalesAmt + r.amount }
    else acc
  if inYtd then
    { acc with
      ySalesAmt := acc.ySalesAmt + r.amount,
      yProfit := acc.yProfit + r.profit,
      ySalesCount := acc.ySalesCount + 1 }
  else acc

/-- Result of the `company` memo; `topRep = "—"` with `topRepSales = none`
models the em-dash placeholders. -/
structure CompanyOut where
  mSalesAmt : ℚ
  ySalesAmt : ℚ
  mProfit : ℚ
  yProfit : ℚ
  mSalesCount : ℕ
  ySalesCount : ℕ
  topRep : String
  topRepSales : Option ℕ
  prevMonthSalesAmt : ℚ
  deltaPct : Option ℚ
  deltaIsNew : Bool
deriving Repr, DecidableEq

/-- `company` from page.tsx 386-450. -/
def company (ctx : AggCtx) (rows : List SalesRecord) : CompanyOut :=
  let acc := rows.foldl (companyStep ctx) companyAcc0
  let deltaPct : Option ℚ :=
    if 0 < acc.prevMonthSalesAmt then
      some ((acc.mSalesAmt - acc.prevMonthSalesAmt) / acc.prevMonthSalesAmt * 100)
    else none
  let deltaIsNew : Bool :=
    !(decide (0 < acc.prevMonthSalesAmt)) &&
    decide (acc.prevMonthSalesAmt = 0) && decide (0 < acc.mSalesAmt)
  let arr := jsSortBy (fun a b => decide (b.2 ≤ a.2)) acc.monthlyByRep
  let top : String × Option ℕ :=
    match arr with
    | [] => ("—", none)
    | x :: _ => (x.1, some x.2)
  { mSalesAmt := acc.mSalesAmt, ySalesAmt := acc.ySalesAmt,
    mProfit := acc.mProfit, yProfit := acc.yProfit,
    mSalesCount := acc.mSalesCount, ySalesCount := acc.ySalesCount,
    topRep := top.1, topRepSales := top.2,
    prevMonthSalesAmt := acc.prevMonthSalesAmt,
    deltaPct := deltaPct, deltaIsNew := deltaIsNew }

def byRepOf (rows : List SalesRecord) : List (String × List SalesRecord) :=
  rows.foldl (fun m r => groupPush r.rep r m) []

/-- Row of the Sales Reps table (page.tsx 463-536). -/
structure RepRow where
  rep : String
  mSales : ℕ
  ySales : ℕ
  mProfit : ℚ
  yProfit : ℚ
  mRevenue : ℚ
  yRevenue : ℚ
  mComm : ℚ
  yComm : ℚ
  diff : ℤ
deriving Repr, DecidableEq

structure RepAcc where
  mSales : ℕ
  ySales : ℕ
  mProfit : ℚ
  yProfit : ℚ
  mRevenue : ℚ
  yRevenue : ℚ
  mComm : ℚ
  yComm : ℚ
  salesByMonth : List (String × ℕ)
deriving Repr, DecidableEq

def repAccStep (ctx : AggCtx) (acc : RepAcc) (r : SalesRecord) : RepAcc :=
  let key := ym r.date
  let acc := { acc with
    salesByMonth :=
      mapSet key ((mapGet key acc.salesByMonth).getD 0 + 1) acc.salesByMonth }
  let inMonth := key = ctx.thisMonthKey
  let inYtd := ctx.ytdStart ≤ r.date ∧ r.date ≤ ctx.ytdEnd
  let acc :=
    if inMonth then
      { acc with
        mSales := acc.mSales + 1, mProfit := acc.mProfit + r.profit,
        mRevenue := acc.mRevenue + r.amount, mComm := acc.mComm + r.commission }
    else acc
  if inYtd then
    { acc with
      ySales := acc.ySales + 1, yProfit := acc.yProfit + r.profit,
      yRevenue := acc.yRevenue + r.amount, yComm := acc.yComm + r.commission }
  else acc

def repAgg (ctx : AggCtx) (rep : String) (arr : List SalesRecord) : RepRow :=
  let acc := arr.foldl (repAccStep ctx) ⟨0, 0, 0, 0, 0, 0, 0, 0, []⟩
  { rep := rep, mSales := acc.mSales, ySales := acc.ySales,
    mProfit := acc.mProfit, yProfit := acc.yProfit,
    mRevenue := acc.mRevenue, yRevenue := acc.yRevenue,
    mComm := acc.mComm, yComm := acc.yComm,
    diff := ((mapGet ctx.thisMonthKey acc.salesByMonth).getD 0 : ℤ) -
      ((mapGet ctx.prevMonthKey acc.salesByMonth).getD 0 : ℤ) }

/-- Comparator of `out.sort((a, b) => b.yProfit - a.yProfit || a.rep.localeCompare(b.rep))`
as a ≤-test (the element order of a JS stable sort with comparator `c` is
that of a stable sort with `le a b ↔ c a b ≤ 0`). -/
def leRepRow (a b : RepRow) : Bool :=
  decide (jsOrQ (b.yProfit - a.yProfit) ((localeCompare a.rep b.rep : ℤ) : ℚ) ≤ 0)

/-- `repRows` from page.tsx 463-536 (sorted output). -/
def repRows (ctx : AggCtx) (rows : List SalesRecord) : List RepRow :=
  jsSortBy leRepRow ((byRepOf rows).map (fun p => repAgg ctx p.1 p.2))

/-- Row of the Products table (page.tsx 540-594). -/
structure ProductRow where
  product : String
  mCount : ℕ
  yCount : ℕ
  totalProfitAll : ℚ
  marginPctAll : ℚ
deriving Repr, DecidableEq

structure ProdAcc where
  m : List (String × ℕ)
  y : List (String × ℕ)
  histRevenue : List (String × ℚ)
  histProfit : List (String × ℚ)
deriving Repr, DecidableEq

def productStep (ctx : AggCtx) (acc : ProdAcc) (r : SalesRecord) : ProdAcc :=
  let name := jsOrS r.product "(Unspecified)"
  let key := ym r.date
  let windowEnd := endOfMonth ctx.contextDate
  let isSelectedMonth := key = ctx.thisMonthKey
  let inYtdWindow := ctx.ytdStart ≤ r.date ∧ r.date ≤ ctx.ytdEnd
  let inHistWindow := ctx.ytdStart ≤ r.date ∧ r.date ≤ windowEnd
  let excludeSelected := ctx.live ∧ isSelectedMonth
  let acc :=
    if isSelectedMonth then
      { acc with m := mapSet name ((mapGet name acc.m).getD 0 + 1) acc.m }
    else acc
  let acc :=
    if inYtdWindow then
      { acc with y := mapSet name ((mapGet name acc.y).getD 0 + 1) acc.y }
    else acc
  if inHistWindow ∧ ¬excludeSelected then
    { acc with
      histRevenue :=
        mapSet name ((mapGet name acc.histRevenue).getD 0 + r.amount)
          acc.histRevenue,
      histProfit :=
        mapSet name ((mapGet name acc.histProfit).getD 0 + r.profit)
          acc.histProfit }
  else acc

/-- `productRows` from page.tsx 540-594 (unsorted; the table sorts in the
render). -/
def productRows (ctx : AggCtx) (rows : List SalesRecord) : List ProductRow :=
  let acc := rows.foldl (productStep ctx) ⟨[], [], [], []⟩
  let names := jsSetOf
    (mapKeys acc.m ++ mapKeys acc.y ++ mapKeys acc.histRevenue ++
      mapKeys acc.histProfit)
  names.map (fun n =>
    let totalRevHist := (mapGet n acc.histRevenue).getD 0
    let totalProfHist := (mapGet n acc.histProfit).getD 0
    { product := n,
      mCount := (mapGet n acc.m).getD 0,
      yCount := (mapGet n acc.y).getD 0,
      totalProfitAll := totalProfHist,
      marginPctAll :=
        if 0 < totalRevHist then 100 * totalProfHist / totalRevHist else 0 })

/-- The render-time sort of the Products table
(`[...productRows].sort((a, b) => b.totalProfitAll - a.totalProfitAll)`,
page.tsx 1203-1205): only the profit metric, ties keep list order. -/
def productRowsSorted (ctx : AggCtx) (rows : List SalesRecord) :
    List ProductRow :=
  jsSortBy (fun a b => decide (b.totalProfitAll ≤ a.totalProfitAll))
    (productRows ctx rows)

/-- Row of the Average Profit per Sale table (page.tsx 598-645). -/
structure AvgRow where
  rep : String
  mAvg : ℚ
  yAvg : ℚ
deriving Repr, DecidableEq

structure AvgAcc where
  rep : String
  histAllSales : ℕ
  histAllProfit : ℚ
  histYtdSales : ℕ
  histYtdProfit : ℚ
deriving Repr, DecidableEq

def avgStep (ctx : AggCtx) (m : List (String × AvgAcc)) (r : SalesRecord) :
    List (String × AvgAcc) :=
  let key := ym r.date
  let inCurrentMonth := key = ctx.thisMonthKey
  let inYtd := ctx.ytdStart ≤ r.date ∧ r.date ≤ ctx.ytdEnd
  let agg := (mapGet r.rep m).getD ⟨r.rep, 0, 0, 0, 0⟩
  let agg :=
    if ¬inCurrentMonth then
      let agg := { agg with
        histAllSales := agg.histAllSales + 1,
        histAllProfit := agg.histAllProfit + r.profit }
      if inYtd then
        { agg with
          histYtdSales := agg.histYtdSales + 1,
          histYtdProfit := agg.histYtdProfit + r.profit }
      else agg
    else agg
  mapSet r.rep agg m

def leAvgRow (a b : AvgRow) : Bool :=
  decide (jsOrQ (b.mAvg - a.mAvg)
    (jsOrQ (b.yAvg - a.yAvg) ((localeCompare a.rep b.rep : ℤ) : ℚ)) ≤ 0)

/-- `avgRows` from page.tsx 598-645: per-rep average profit per sale over
records outside the context month (lifetime and YTD), sorted by monthly
average desc, YTD average desc, rep name asc. -/
def avgRows (ctx : AggCtx) (rows : List SalesRecord) : List AvgRow :=
  let byRep := rows.foldl (avgStep ctx) []
  let list := byRep.map (fun p =>
    let agg := p.2
    { rep := agg.rep,
      mAvg := if 0 < agg.histAllSales then
          agg.histAllProfit / (agg.histAllSales : ℚ) else 0,
      yAvg := if 0 < agg.histYtdSales then
          agg.histYtdProfit / (agg.histYtdSales : ℚ) else 0 })
  jsSortBy leAvgRow list

/-- The full aggregation pass of the dashboard over one snapshot: the three
memoised tables as one pure function of (records, context). -/
def aggregateAll (ctx : AggCtx) (rows : List SalesRecord) :
    CompanyOut × List RepRow × List ProductRow × List AvgRow :=
  (company ctx rows, repRows ctx rows, productRows ctx rows, avgRows ctx rows)

/-! ## Turf tracking (page.tsx 647-953 and 1604-1672) -/

/-- One weekly visit entry extracted from columns M-P of the raw grid. -/
structure TurfEntry where
  rep : String
  turf : String
  week : String
  date : ℤ
  count : ℤ
  month : String
deriving Repr, DecidableEq

/-- Does the date regex `/\d{1,2}[\/\-]\d{1,2}[\/\-]\d{2,4}/` match starting
at the head of `cs`?  (Bounded quantifiers, so backtracking = existence.) -/
def dateLikeAt (cs : List Char) : Bool :=
  [1, 2].any fun k1 =>
    decide ((cs.take k1).length = k1) && (cs.take k1).all Char.isDigit &&
    match cs.drop k1 with
    | s1 :: rest1 =>
        isDateSep s1 &&
        ([1, 2].any fun k2 =>
          decide ((rest1.take k2).length = k2) &&
          (rest1.take k2).all Char.isDigit &&
          match rest1.drop k2 with
          | s2 :: rest2 =>
              isDateSep s2 &&
              ([2, 3, 4].any fun k3 =>
                decide ((rest2.take k3).length = k3) &&
                (rest2.take k3).all Char.isDigit)
          | [] => false)
    | [] => false

/-- The unanchored `dateLike` test from the turf extractor. -/
def dateLike (s : String) : Bool := s.data.tails.any dateLikeAt

/-- JS `parseInt(s, 10)` on a digits/minus-only cleaned string. -/
def parseIntJS (cs : List Char) : Option ℤ :=
  let neg := match cs with | '-' :: _ => true | _ => false
  let cs1 := match cs with | '-' :: t => t | _ => cs
  let ds := cs1.takeWhile Char.isDigit
  if ds.length = 0 then none
  else some (if neg then -(digitsVal ds : ℤ) else (digitsVal ds : ℤ))

/-- Detection of the first data row: the first of the first 10 rows whose
column N looks like a date (default 1). -/
def detectStartRow (grid : List (List String)) : ℕ :=
  match (List.range (min 10 grid.length)).find? (fun i =>
      let r := grid.getD i []
      decide (15 < r.length) && dateLike (r.getD 13 "")) with
  | some i => i
  | none => 1

/-- The per-row extraction inside the `turfEntries` loop: `none` models
`continue` (the row is skipped). -/
def mkTurfEntry (row : List String) : Option TurfEntry :=
  if ¬15 < row.length then none else
  let repM := jsTrim (row.getD 12 "")
  let dateN := jsTrim (row.getD 13 "")
  let turfO := jsTrim (row.getD 14 "")
  let salesP := jsTrim (row.getD 15 "")
  if repM = "" ∨ dateN = "" ∨ turfO = "" ∨ salesP = "" then none else
  match parseDDMMYYYY dateN with
  | none => none
  | some d =>
      let mon := mondayOfWeek d
      let cnt :=
        (parseIntJS (salesP.data.filter (fun c => c.isDigit || c = '-'))).getD 0
      some { rep := repM, turf := turfO, week := weekKey mon, date := mon,
             count := cnt, month := ym mon }

/-- `turfEntries` from page.tsx 667-707: extract the valid turf rows from the
raw grid by fixed column position. -/
def turfEntries (grid : List (List String)) : List TurfEntry :=
  if grid.length = 0 then []
  else (grid.drop (detectStartRow grid)).filterMap mkTurfEntry

/-- `allRepsFromM`: distinct reps of the turf entries, name-sorted. -/
def allRepsFromM (entries : List TurfEntry) : List String :=
  jsSortBy (fun a b => decide (localeCompare a b ≤ 0))
    (jsSetOf (entries.map (fun e => e.rep)))

/-- `allTurfs`: distinct turfs of the turf entries, name-sorted. -/
def allTurfs (entries : List TurfEntry) : List String :=
  jsSortBy (fun a b => decide (localeCompare a b ≤ 0))
    (jsSetOf (entries.map (fun e => e.turf)))

/-- Result record of `calcRepTurfStats` (page.tsx 723-790). -/
structure RepTurfStats where
  lifetimeSales : ℤ
  lifetimeWeeks : ℕ
  avgPerVisit : ℚ
  ytdSales : ℤ
  ytdWeeks : ℕ
  ytdAvg : ℚ
  last : Option ℤ
  weeksSinceLast : Option ℤ
  best : Option TurfEntry
  worst : Option TurfEntry
  seasonalAvg : ℚ
  nextEligible : ℤ
  monthWeeks : ℕ
  monthSales : ℤ
  lastAny : Option ℤ
  lastAnyRep : Option String
  weeksSinceAny : Option ℤ
deriving Repr, DecidableEq

/-- The `reduce`-style latest-date fold
(`(acc, e) => (!acc || e.date > acc ? e.date : acc)`). -/
def lastDateOf (entries : List TurfEntry) : Option ℤ :=
  entries.foldl
    (fun acc e =>
      match acc with
      | none => some e.date
      | some a => if a < e.date then some e.date else some a) none

/-- `calcRepTurfStats(rep, turf)` from page.tsx 723-790; `today` is
`new Date()`, `thisMonthKey` the dashboard month key the memo closes over,
`allEntries` the full `turfEntries` list. -/
def calcRepTurfStats (today : ℤ) (thisMonthKey : String)
    (allEntries : List TurfEntry) (rep turf : String) : RepTurfStats :=
  let ytdStartNow := startOfYear today
  let entries := allEntries.filter (fun e => e.rep = rep ∧ e.turf = turf)
  let lifetimeSales := entries.foldl (fun s e => s + e.count) (0 : ℤ)
  let lifetimeWeeks := (jsSetOf (entries.map (fun e => e.week))).length
  let avgPerVisit : ℚ :=
    if 0 < lifetimeWeeks then (lifetimeSales : ℚ) / (lifetimeWeeks : ℚ) else 0
  let ytdEntries := entries.filter
    (fun e => ytdStartNow ≤ e.date ∧ e.date ≤ today)
  let ytdWeeks := (jsSetOf (ytdEntries.map (fun e => e.week))).length
  let ytdSales := ytdEntries.foldl (fun s e => s + e.count) (0 : ℤ)
  let ytdAvg : ℚ := if 0 < ytdWeeks then (ytdSales : ℚ) / (ytdWeeks : ℚ) else 0
  let last := lastDateOf entries
  let weeksSinceLast := last.map (fun l => weeksBetween today l)
  let best := match entries with
    | [] => none
    | h :: t => some (t.foldl (fun a b => if a.count < b.count then b else a) h)
  let worst := match entries with
    | [] => none
    | h :: t => some (t.foldl (fun a b => if b.count < a.count then b else a) h)
  let seasonal := entries.filter (fun e => getMonth e.date = getMonth today)
  let seasonalWeeks := (jsSetOf (seasonal.map (fun e => e.week))).length
  let seasonalSales := seasonal.foldl (fun s e => s + e.count) (0 : ℤ)
  let seasonalAvg : ℚ :=
    if 0 < seasonalWeeks then (seasonalSales : ℚ) / (seasonalWeeks : ℚ) else 0
  let nextEligible := match last with
    | some l => mondayOfWeek (l + 21)
    | none => mondayOfWeek today
  let monthEntries := entries.filter (fun e => e.month = thisMonthKey)
  let monthWeeks := (jsSetOf (monthEntries.map (fun e => e.week))).length
  let monthSales := monthEntries.foldl (fun s e => s + e.count) (0 : ℤ)
  let lastAnyPair := allEntries.foldl
    (fun (acc : Option ℤ × Option String) e =>
      if e.turf = turf then
        match acc.1 with
        | none => (some e.date, if e.rep = "" then none else some e.rep)
        | some a =>
            if a < e.date then (some e.date, if e.rep = "" then none else some e.rep)
            else acc
      else acc) (none, none)
  let weeksSinceAny := lastAnyPair.1.map (fun l => weeksBetween today l)
  { lifetimeSales := lifetimeSales, lifetimeWeeks := lifetimeWeeks,
    avgPerVisit := avgPerVisit, ytdSales := ytdSales, ytdWeeks := ytdWeeks,
    ytdAvg := ytdAvg, last := last, weeksSinceLast := weeksSinceLast,
    best := best, worst := worst, seasonalAvg := seasonalAvg,
    nextEligible := nextEligible, monthWeeks := monthWeeks,
    monthSales := monthSales, lastAny := lastAnyPair.1,
    lastAnyRep := lastAnyPair.2, weeksSinceAny := weeksSinceAny }

/-! ### Turf suggestions (page.tsx 856-953) -/

/-- Per-turf accumulator of the suggestion memo. -/
structure TurfAgg where
  ytdSales : ℤ
  ytdWeeks : List String
  last : Option ℤ
deriving Repr, DecidableEq

/-- One step of the per-rep `for (const e of items)` loop. -/
def turfAggStep (today ytdStartNow : ℤ) (m : List (String × TurfAgg))
    (e : TurfEntry) : List (String × TurfAgg) :=
  let agg := (mapGet e.turf m).getD ⟨0, [], none⟩
  let agg :=
    if ytdStartNow ≤ e.date ∧ e.date ≤ today then
      { agg with ytdSales := agg.ytdSales + e.count,
                 ytdWeeks := setAdd agg.ytdWeeks e.week }
    else agg
  let agg :=
    match agg.last with
    | none => { agg with last := some e.date }
    | some a => if a < e.date then { agg with last := some e.date } else agg
  mapSet e.turf agg m

structure PerfEntry where
  turf : String
  avgPerWeekYTD : ℚ
  last : Option ℤ
deriving Repr, DecidableEq

def perfOfAgg (t : String) (agg : TurfAgg) : PerfEntry :=
  { turf := t,
    avgPerWeekYTD :=
      if 0 < agg.ytdWeeks.length then
        (agg.ytdSales : ℚ) / (agg.ytdWeeks.length : ℚ) else 0,
    last := agg.last }

/-- `perf.sort((a, b) => b.avgPerWeekYTD - a.avgPerWeekYTD || a.turf.localeCompare(b.turf))`
as a ≤-test. -/
def lePerf (a b : PerfEntry) : Bool :=
  decide (jsOrQ (b.avgPerWeekYTD - a.avgPerWeekYTD)
    ((localeCompare a.turf b.turf : ℤ) : ℚ) ≤ 0)

/-- `const tooRecent = p.last && p.last > threeWeeksAgoMon`. -/
def tooRecent (threeWeeksAgoMon : ℤ) (p : PerfEntry) : Bool :=
  match p.last with
  | some l => decide (threeWeeksAgoMon < l)
  | none => false

/-- A rep's suggestion; `turf = "NO SUGGESTION"` is the marker value of the
source's string union. -/
structure Suggestion where
  turf : String
  avgPerWeekYTD : Option ℚ
  nextWeekMonday : ℤ
  nextRefreshMonday : ℤ
  note : Option String
deriving Repr, DecidableEq

structure RepSuggestion where
  rep : String
  suggestion : Suggestion
deriving Repr, DecidableEq

def noSuggestionNote : String :=
  "All turfs are too recent (visited within last 3 weeks). Revisit after 3 weeks."

/-- The per-rep body of the first `turfSuggestions` loop. -/
def suggestFor (today : ℤ) (items : List TurfEntry) : Suggestion :=
  let ytdStartNow := startOfYear today
  let threeWeeksAgoMon := mondayOfWeek (today - 21)
  let nextWeekMonday := mondayOfWeek (today + 7)
  let nextRefreshMonday := mondayOfWeek (today + 14)
  let map := items.foldl (turfAggStep today ytdStartNow) []
  let perf := map.map (fun p => perfOfAgg p.1 p.2)
  let sorted := jsSortBy lePerf perf
  match sorted.find? (fun p => !tooRecent threeWeeksAgoMon p) with
  | some p =>
      { turf := p.turf, avgPerWeekYTD := some p.avgPerWeekYTD,
        nextWeekMonday := nextWeekMonday,
        nextRefreshMonday := nextRefreshMonday, note := none }
  | none =>
      { turf := "NO SUGGESTION", avgPerWeekYTD := none,
        nextWeekMonday := nextWeekMonday,
        nextRefreshMonday := nextRefreshMonday,
        note := some noSuggestionNote }

def byRepTurf (entries : List TurfEntry) :
    List (String × List TurfEntry) :=
  entries.foldl (fun m e => groupPush e.rep e m) []

/-- The placeholder pushed for reps that have rows in M but no entries. -/
def noDataSuggestion (today : ℤ) : Suggestion :=
  { turf := "NO SUGGESTION", avgPerWeekYTD := none,
    nextWeekMonday := mondayOfWeek (today + 7),
    nextRefreshMonday := mondayOfWeek (today + 14),
    note := some "No data yet for this rep." }

/-- `turfSuggestions` from page.tsx 868-953. -/
def turfSuggestions (today : ℤ) (entries : List TurfEntry) :
    List RepSuggestion :=
  let byRep := byRepTurf entries
  let sortedKeys := jsSortBy (fun a b => decide (localeCompare a b ≤ 0))
    (mapKeys byRep)
  let results1 := sortedKeys.map (fun rep =>
    RepSuggestion.mk rep (suggestFor today ((mapGet rep byRep).getD [])))
  let results2 := (allRepsFromM entries).foldl
    (fun acc rep =>
      if (acc.find? (fun r => r.rep = rep)).isSome then acc
      else acc ++ [RepSuggestion.mk rep (noDataSuggestion today)]) results1
  jsSortBy (fun a b => decide (localeCompare a.rep b.rep ≤ 0)) results2

/-! ### Rotation guardrails (page.tsx 1613-1652) -/

structure RotationWarning where
  rep : String
  turf : String
  streak : ℕ
  weeks : List String
deriving Repr, DecidableEq

/-- `byRepWeekTurf`: rep → (week key → turf), last write per (rep, week)
wins. -/
def byRepWeekTurf (entries : List TurfEntry) :
    List (String × List (String × String)) :=
  entries.foldl
    (fun m e =>
      let inner := (mapGet e.rep m).getD []
      mapSet e.rep (mapSet e.week e.turf inner) m) []

/-- The trailing-12 week-key list, most recent week first. -/
def weeksList (today : ℤ) : List String :=
  (List.range 12).map (fun i => weekKey (mondayOfWeek today - 7 * (i : ℤ)))

structure ScanSt where
  curTurf : String
  streak : ℕ
  streakWeeks : List String
  out : List RotationWarning
deriving Repr, DecidableEq

/-- Flush the streak under construction if it is a violation. -/
def flushWarn (rep : String) (st : ScanSt) : List RotationWarning :=
  if 2 < st.streak ∧ st.curTurf ≠ "" then
    st.out ++ [⟨rep, st.curTurf, st.streak, st.streakWeeks⟩]
  else st.out

/-- One iteration of the `for (const w of weeks)` scan. -/
def scanStep (rep : String) (wkMap : List (String × String)) (st : ScanSt)
    (w : String) : ScanSt :=
  let t := (mapGet w wkMap).getD ""
  if t ≠ "" ∧ t = st.curTurf then
    { st with streak := st.streak + 1, streakWeeks := st.streakWeeks ++ [w] }
  else if t ≠ "" then
    { curTurf := t, streak := 1, streakWeeks := [w], out := flushWarn rep st }
  else
    { curTurf := "", streak := 0, streakWeeks := [], out := flushWarn rep st }

/-- The per-rep body of `byRepWeekTurf.forEach`. -/
def scanRep (rep : String) (wkMap : List (String × String))
    (weeks : List String) : List RotationWarning :=
  flushWarn rep (weeks.foldl (scanStep rep wkMap) ⟨"", 0, [], []⟩)

/-- `warnings` from the Rotation Guardrails section (page.tsx 1613-1652). -/
def warnings (today : ℤ) (entries : List TurfEntry) : List RotationWarning :=
  (byRepWeekTurf entries).foldl
    (fun acc p => acc ++ scanRep p.1 p.2 (weeksList today)) []

/-! ## Sheet proxy routes (src/unnamed/part_002 and part_001) -/

/-- Outcome of the upstream `fetch(url, { cache: "no-store" })`. -/
inductive FetchOutcome where
  | throws (msg : String)
  | resp (status : ℕ) (contentType : String) (body : String)
deriving Repr, DecidableEq

structure HttpResp where
  status : ℕ
  contentType : String
  body : String
deriving Repr, DecidableEq

/-- `res.ok`: status in the 2xx range. -/
def fetchOk (status : ℕ) : Prop := 200 ≤ status ∧ status ≤ 299

instance : DecidablePred fetchOk := fun s => by unfold fetchOk; infer_instance

def textResponse (body : String) (status : ℕ) : HttpResp :=
  { status := status, contentType := "text/plain; charset=utf-8", body := body }

/-- `GET` of app/api/sheet/route.ts (src/unnamed/part_002, first version):
proxies `SHEET_CSV_URL` with explicit error statuses. -/
def sheetGET (env : Option String) (fetch : String → FetchOutcome) : HttpResp :=
  match env with
  | none =>
      textResponse
        "ERROR: Missing SHEET_CSV_URL env var in Vercel → Settings → Environment Variables."
        500
  | some url =>
      match fetch url with
      | .throws m => textResponse ("ERROR: Fetch threw: " ++ m) 500
      | .resp status contentType body =>
          if ¬fetchOk status then
            textResponse
              ("ERROR: Upstream fetch failed (" ++ toString status ++ ") for " ++ url)
              502
          else if jsTrim body = "" then
            textResponse ("ERROR: Upstream returned empty body for " ++ url) 502
          else
            { status := 200, contentType := "text/csv; charset=utf-8",
              body := body }

/-- `GET` of the older `CSV_URL` route (src/unnamed/part_001).  It has no
try/catch and no status/body checks: a thrown fetch propagates out of the
handler (modelled as `Except.error`), and any upstream response body is
re-served with status 200. -/
def csvGET (env : Option String) (fetch : String → FetchOutcome) :
    Except String HttpResp :=
  match env with
  | none =>
      .ok { status := 500, contentType := "application/json",
            body := "\x7b\"error\":\"CSV_URL not set\"\x7d" }
  | some url =>
      match fetch url with
      | .throws m => .error m
      | .resp _ _ body =>
          .ok { status := 200, contentType := "text/csv", body := body }

/-! ## Claim C7 — numeric parsing -/

/-- C7: the numeric parser maps `"1.234,56"` to 1234.56 (comma-decimal
locale), `"1,234.56"` to 1234.56, and `""` to 0; and every input whose
cleaned form does not parse as a (finite) number yields 0. -/
theorem normNum_locale_spec :
    normNum "1.234,56" = 1234.56 ∧ normNum "1,234.56" = 1234.56 ∧
    normNum "" = 0 ∧
    ∀ s : String, parseFloatQ (normNumCleaned (jsTrim s)) = none →
      normNum s = 0 := by
  have hp : parseFloatQ ['1', '2', '3', '4', '.', '5', '6'] =
      some ((digitsVal ['1', '2', '3', '4'] : ℚ) +
        (digitsVal ['5', '6'] : ℚ) / 10 ^ (['5', '6'] : List Char).length) := rfl
  refine ⟨?_, ?_, by decide, ?_⟩
  · unfold normNum
    rw [if_neg (show ¬jsTrim "1.234,56" = "" by decide),
      show normNumCleaned (jsTrim "1.234,56") =
        ['1', '2', '3', '4', '.', '5', '6'] from by decide, hp,
      show digitsVal ['1', '2', '3', '4'] = 1234 from by decide,
      show digitsVal ['5', '6'] = 56 from by decide]
    norm_num
  · unfold normNum
    rw [if_neg (show ¬jsTrim "1,234.56" = "" by decide),
      show normNumCleaned (jsTrim "1,234.56") =
        ['1', '2', '3', '4', '.', '5', '6'] from by decide, hp,
      show digitsVal ['1', '2', '3', '4'] = 1234 from by decide,
      show digitsVal ['5', '6'] = 56 from by decide]
    norm_num
  · intro s h
    unfold normNum
    by_cases hs : jsTrim s = ""
    · simp [hs]
    · simp [hs, h]

/-- Witness: `"x-"` cleans to `"-"`, which `parseFloat` rejects, so the
result is 0 by the theorem's last conjunct. -/
theorem normNum_locale_spec_witness : normNum "x-" = 0 :=
  normNum_locale_spec.2.2.2 "x-" (by decide)

/-! ## Claim C1 — the Row Normalizer's drop conditions -/

/-- C1: `normalizeRow` returns `null` whenever the rep-name field is
missing/empty (after trimming) or no date resolves (no parseable month cell
and no parseable fallback date cell, for any behaviour `jsDateParse` of the
engine's generic date parse); and every produced record carries that
non-empty rep name and the resolved date. -/
theorem normalizeRow_drop_iff (jsDateParse : String → Option ℤ)
    (r : List (String × String)) :
    (repOf r = "" ∨ resolveDate jsDateParse r = none →
        normalizeRow jsDateParse r = none) ∧
    ∀ rec, normalizeRow jsDateParse r = some rec →
      rec.rep = repOf r ∧ rec.rep ≠ "" ∧
      resolveDate jsDateParse r = some rec.date := by
  constructor
  · intro hdrop
    rcases hdrop with h1 | h1
    · simp [normalizeRow, h1]
    · unfold normalizeRow
      rw [h1]
      simp
  · intro rec hrec
    unfold normalizeRow at hrec
    by_cases h : repOf r = ""
    · simp [h] at hrec
    · rw [if_neg h] at hrec
      cases hd : resolveDate jsDateParse r with
      | none => rw [hd] at hrec; simp at hrec
      | some d =>
          rw [hd] at hrec
          simp only [Option.some.injEq] at hrec
          subst hrec
          exact ⟨rfl, h, rfl⟩

/-- Witness: a row whose rep cell is whitespace is dropped. -/
theorem normalizeRow_drop_iff_witness :
    normalizeRow (fun _ => none) [("Sales Rep Name", "  ")] = none :=
  (normalizeRow_drop_iff (fun _ => none) [("Sales Rep Name", "  ")]).1
    (Or.inl (by decide))

/-! ## Claim C6 — the month-over-month delta of the company aggregate -/

/-- C6: with a positive previous-month sales total the delta is the exact
percentage `(current - previous) / previous * 100` and the "new" flag is
off; with a zero previous-month total and positive current total the delta
is `null` and the "new" flag is set. -/
theorem company_delta_spec (ctx : AggCtx) (rows : List SalesRecord) :
    (0 < (company ctx rows).prevMonthSalesAmt →
        (company ctx rows).deltaPct =
          some (((company ctx rows).mSalesAmt -
              (company ctx rows).prevMonthSalesAmt) /
            (company ctx rows).prevMonthSalesAmt * 100) ∧
        (company ctx rows).deltaIsNew = false) ∧
    ((company ctx rows).prevMonthSalesAmt = 0 →
      0 < (company ctx rows).mSalesAmt →
        (company ctx rows).deltaPct = none ∧
        (company ctx rows).deltaIsNew = true) := by
  have hprev : (company ctx rows).prevMonthSalesAmt =
      (rows.foldl (companyStep ctx) companyAcc0).prevMonthSalesAmt := rfl
  have hm : (company ctx rows).mSalesAmt =
      (rows.foldl (companyStep ctx) companyAcc0).mSalesAmt := rfl
  constructor
  · intro h
    rw [hprev] at h
    constructor
    · show (if 0 < (rows.foldl (companyStep ctx) companyAcc0).prevMonthSalesAmt
          then some _ else none) = _
      rw [if_pos h, hprev, hm]
    · show (!(decide (0 < (rows.foldl (companyStep ctx)
          companyAcc0).prevMonthSalesAmt)) && _ && _) = false
      simp [h]
  · intro h0 hm0
    rw [hprev] at h0
    rw [hm] at hm0
    constructor
    · show (if 0 < (rows.foldl (companyStep ctx) companyAcc0).prevMonthSalesAmt
          then some _ else none) = _
      rw [if_neg (by rw [h0]; exact lt_irrefl 0)]
    · show (!(decide (0 < (rows.foldl (companyStep ctx)
          companyAcc0).prevMonthSalesAmt)) && _ && _) = true
      simp [h0, hm0]

def c6ctx : AggCtx :=
  { thisMonthKey := "2025-07", prevMonthKey := "2025-06",
    ytdStart := daysFromCivil 2025 1 1, ytdEnd := daysFromCivil 2025 7 31,
    contextDate := daysFromCivil 2025 7 15, live := false }

def c6rows : List SalesRecord :=
  [ { rep := "A", product := "P", date := daysFromCivil 2025 6 1,
      amount := 100, profit := 0, commission := 0 },
    { rep := "A", product := "P", date := daysFromCivil 2025 7 1,
      amount := 120, profit := 0, commission := 0 } ]

/-- Witness: June total 100, July total 120 give a +20% delta without the
"new" flag. -/
theorem company_delta_spec_witness :
    (company c6ctx c6rows).deltaPct = some 20 ∧
    (company c6ctx c6rows).deltaIsNew = false := by
  have hpos : 0 < (company c6ctx c6rows).prevMonthSalesAmt := by
    simp +decide only [company, companyStep, companyAcc0, c6ctx, c6rows,
      List.foldl_cons, List.foldl_nil]
    norm_num
  have h := (company_delta_spec c6ctx c6rows).1 hpos
  refine ⟨h.1.trans ?_, h.2⟩
  simp +decide only [company, companyStep, companyAcc0, c6ctx, c6rows,
    List.foldl_cons, List.foldl_nil]
  norm_num

/-! ## Claim C9 — determinism of the Aggregator -/

/-- C9: the Aggregator (company totals, per-rep rows, per-product rows and
the per-rep averages) is a pure function of the record list and the context
inputs: two evaluations on equal inputs give equal outputs.  In this
embedding every aggregation is a fold over its arguments, so there is no
hidden state by construction. -/
theorem aggregator_deterministic (ctx1 ctx2 : AggCtx)
    (rows1 rows2 : List SalesRecord) (hc : ctx1 = ctx2) (hr : rows1 = rows2) :
    aggregateAll ctx1 rows1 = aggregateAll ctx2 rows2 := by
  subst hc; subst hr; rfl

def c9ctx : AggCtx :=
  { thisMonthKey := "2025-06", prevMonthKey := "2025-05",
    ytdStart := daysFromCivil 2025 1 1, ytdEnd := daysFromCivil 2025 6 30,
    contextDate := daysFromCivil 2025 6 1, live := true }

def c9rows : List SalesRecord :=
  [ { rep := "B", product := "Q", date := daysFromCivil 2025 6 1,
      amount := 10, profit := 2, commission := 1 } ]

/-- Witness: re-running the aggregation on one concrete snapshot. -/
theorem aggregator_deterministic_witness :
    aggregateAll c9ctx c9rows = aggregateAll c9ctx c9rows :=
  aggregator_deterministic c9ctx c9ctx c9rows c9rows rfl rfl

/-! ## Claim C5 — the sheet proxy's statuses -/

/-- C5 counterexample: the `CSV_URL` variant of the sheet route
(src/unnamed/part_001) forwards a non-2xx upstream response as status 200
with the upstream body, where the claim requires status 502. -/
theorem csvGET_nonok_counterexample :
    csvGET (some "u") (fun _ => .resp 404 "text/plain" "nope") =
      .ok { status := 200, contentType := "text/csv", body := "nope" } ∧
    (200 : ℕ) ≠ 502 :=
  ⟨rfl, by decide⟩

/-- C5 (amended to the part_002 handler): `GET /api/sheet` returns 500 when
`SHEET_CSV_URL` is unset, 500 when the fetch throws, 502 when the upstream
status is not 2xx, 502 when the upstream body is empty after trimming, and
otherwise the upstream body as `text/csv` with status 200. -/
theorem sheetGET_status_spec (env : Option String)
    (fetch : String → FetchOutcome) :
    (env = none → (sheetGET env fetch).status = 500) ∧
    (∀ url m, env = some url → fetch url = .throws m →
        (sheetGET env fetch).status = 500) ∧
    (∀ url st ct b, env = some url → fetch url = .resp st ct b →
        ¬fetchOk st → (sheetGET env fetch).status = 502) ∧
    (∀ url st ct b, env = some url → fetch url = .resp st ct b →
        fetchOk st → jsTrim b = "" → (sheetGET env fetch).status = 502) ∧
    (∀ url st ct b, env = some url → fetch url = .resp st ct b →
        fetchOk st → jsTrim b ≠ "" →
        sheetGET env fetch =
          { status := 200, contentType := "text/csv; charset=utf-8",
            body := b }) := by
  refine ⟨?_, ?_, ?_, ?_, ?_⟩
  · rintro rfl; rfl
  · rintro url m rfl hf
    simp only [sheetGET]
    rw [hf]
    rfl
  · rintro url st ct b rfl hf hok
    simp only [sheetGET]
    rw [hf]
    dsimp only
    simp only [if_pos hok]
    rfl
  · rintro url st ct b rfl hf hok hb
    simp only [sheetGET]
    rw [hf]
    dsimp only
    simp only [if_neg (not_not_intro hok), if_pos hb]
    rfl
  · rintro url st ct b rfl hf hok hb
    simp only [sheetGET]
    rw [hf]
    dsimp only
    simp only [if_neg (not_not_intro hok), if_neg hb]

/-- Witness: a healthy upstream response is proxied through as-is. -/
theorem sheetGET_status_spec_witness :
    sheetGET (some "u") (fun _ => .resp 200 "text/csv" "a,b") =
      { status := 200, contentType := "text/csv; charset=utf-8",
        body := "a,b" } :=
  (sheetGET_status_spec (some "u") (fun _ => .resp 200 "text/csv" "a,b")).2.2.2.2
    "u" 200 "text/csv" "a,b" rfl rfl (by decide) (by decide)

/-! ## Last-visit folds -/

theorem lastFold_some (es : List TurfEntry) :
    ∀ (acc : Option ℤ) (l : ℤ),
      es.foldl (fun acc e =>
        match acc with
        | none => some e.date
        | some a => if a < e.date then some e.date else some a) acc = some l →
      (acc = some l ∨ l ∈ es.map (fun e => e.date)) ∧
      (∀ e ∈ es, e.date ≤ l) ∧ (∀ x, acc = some x → x ≤ l) := by
  induction es with
  | nil =>
      intro acc l h
      simp only [List.foldl_nil] at h
      refine ⟨Or.inl h, by simp, ?_⟩
      intro x hx
      rw [h] at hx
      cases hx
      exact le_refl l
  | cons e tl ih =>
      intro acc l h
      simp only [List.foldl_cons] at h
      cases acc with
      | none =>
          obtain ⟨h1, h2, h3⟩ := ih (some e.date) l h
          have hedl : e.date ≤ l := h3 e.date rfl
          refine ⟨?_, ?_, ?_⟩
          · rcases h1 with h1 | h1
            · cases h1
              exact Or.inr (by simp)
            · exact Or.inr (by simp [h1])
          · intro e2 he2
            rcases List.mem_cons.mp he2 with rfl | he2
            · exact hedl
            · exact h2 e2 he2
          · intro x hx; cases hx
      | some a =>
          dsimp only at h
          by_cases hlt : a < e.date
          · rw [if_pos hlt] at h
            obtain ⟨h1, h2, h3⟩ := ih (some e.date) l h
            have hedl : e.date ≤ l := h3 e.date rfl
            refine ⟨?_, ?_, ?_⟩
            · rcases h1 with h1 | h1
              · cases h1
                exact Or.inr (by simp)
              · exact Or.inr (by simp [h1])
            · intro e2 he2
              rcases List.mem_cons.mp he2 with rfl | he2
              · exact hedl
              · exact h2 e2 he2
            · intro x hx
              cases hx
              exact le_trans (le_of_lt hlt) hedl
          · rw [if_neg hlt] at h
            obtain ⟨h1, h2, h3⟩ := ih (some a) l h
            have hal : a ≤ l := h3 a rfl
            refine ⟨?_, ?_, ?_⟩
            · rcases h1 with h1 | h1
              · exact Or.inl h1
              · exact Or.inr (by simp [h1])
            · intro e2 he2
              rcases List.mem_cons.mp he2 with rfl | he2
              · exact le_trans (le_of_not_lt hlt) hal
              · exact h2 e2 he2
            · intro x hx
              cases hx
              exact hal

theorem lastFold_none (es : List TurfEntry) :
    ∀ acc : Option ℤ,
      es.foldl (fun acc e =>
        match acc with
        | none => some e.date
        | some a => if a < e.date then some e.date else some a) acc = none →
      acc = none ∧ es = [] := by
  induction es with
  | nil => intro acc h; exact ⟨h, rfl⟩
  | cons e tl ih =>
      intro acc h
      simp only [List.foldl_cons] at h
      cases acc with
      | none =>
          have := (ih (some e.date) h).1
          cases this
      | some a =>
          dsimp only at h
          by_cases hlt : a < e.date
          · rw [if_pos hlt] at h
            have := (ih (some e.date) h).1
            cases this
          · rw [if_neg hlt] at h
            have := (ih (some a) h).1
            cases this

theorem lastDateOf_spec {es : List TurfEntry} {l : ℤ}
    (h : lastDateOf es = some l) :
    l ∈ es.map (fun e => e.date) ∧ ∀ e ∈ es, e.date ≤ l := by
  obtain ⟨h1, h2, h3⟩ := lastFold_some es none l h
  rcases h1 with h1 | h1
  · cases h1
  · exact ⟨h1, h2⟩

theorem lastDateOf_isSome {es : List TurfEntry} (h : es ≠ []) :
    ∃ l, lastDateOf es = some l := by
  cases hl : lastDateOf es with
  | none => exact absurd (lastFold_none es none hl).2 h
  | some l => exact ⟨l, rfl⟩

/-! ## Claim C8 — the "next eligible" date -/

/-- Rounding up to the next Monday (a Monday stays put): the formalisation
of "rounded to the following Monday". -/
def roundUpToMonday (d : ℤ) : ℤ := d + ((1 - getDay d) % 7)

theorem roundUpToMonday_eq_self {d : ℤ} (h : isMonday d) :
    roundUpToMonday d = d := by
  unfold isMonday at h
  unfold roundUpToMonday
  rw [h]
  norm_num

theorem isMonday_add_21 {d : ℤ} (h : isMonday d) : isMonday (d + 21) := by
  unfold isMonday getDay at *
  omega

/-- C8: for every rep/territory pair with at least one recorded visit, the
"next eligible" date equals 21 days after the last (latest) visit, rounded
up to the following Monday — since visit dates are week-normalised Mondays
(claim C10), 21 days after the last visit is itself a Monday and the two
coincide. -/
theorem nextEligible_spec (today : ℤ) (thisMonthKey : String)
    (allEntries : List TurfEntry) (rep turf : String)
    (hmon : ∀ e ∈ allEntries, isMonday e.date)
    (hne : allEntries.filter (fun e => e.rep = rep ∧ e.turf = turf) ≠ []) :
    ∃ l,
      (calcRepTurfStats today thisMonthKey allEntries rep turf).last = some l ∧
      l ∈ (allEntries.filter
        (fun e => e.rep = rep ∧ e.turf = turf)).map (fun e => e.date) ∧
      (∀ e ∈ allEntries.filter (fun e => e.rep = rep ∧ e.turf = turf),
        e.date ≤ l) ∧
      (calcRepTurfStats today thisMonthKey allEntries rep turf).nextEligible =
        roundUpToMonday (l + 21) ∧
      (calcRepTurfStats today thisMonthKey allEntries rep turf).nextEligible =
        l + 21 := by
  obtain ⟨l, hl⟩ := lastDateOf_isSome hne
  obtain ⟨hmem, hmax⟩ := lastDateOf_spec hl
  have hlmon : isMonday l := by
    rcases List.mem_map.mp hmem with ⟨e, he, rfl⟩
    exact hmon e (List.mem_of_mem_filter he)
  have hlast : (calcRepTurfStats today thisMonthKey allEntries rep turf).last =
      lastDateOf (allEntries.filter (fun e => e.rep = rep ∧ e.turf = turf)) :=
    rfl
  have hnext :
      (calcRepTurfStats today thisMonthKey allEntries rep turf).nextEligible =
        match lastDateOf
            (allEntries.filter (fun e => e.rep = rep ∧ e.turf = turf)) with
        | some x => mondayOfWeek (x + 21)
        | none => mondayOfWeek today := rfl
  refine ⟨l, by rw [hlast, hl], hmem, hmax, ?_, ?_⟩
  · rw [hnext, hl]
    show mondayOfWeek (l + 21) = roundUpToMonday (l + 21)
    rw [mondayOfWeek_eq_self (isMonday_add_21 hlmon),
      roundUpToMonday_eq_self (isMonday_add_21 hlmon)]
  · rw [hnext, hl]
    show mondayOfWeek (l + 21) = l + 21
    exact mondayOfWeek_eq_self (isMonday_add_21 hlmon)

def c8entry : TurfEntry :=
  { rep := "A", turf := "T", week := "2025-09-15",
    date := daysFromCivil 2025 9 15, count := 2, month := "2025-09" }

/-- Witness: a single visit on Monday 2025-09-15 makes the pair next
eligible exactly 21 days later. -/
theorem nextEligible_spec_witness :
    (calcRepTurfStats (daysFromCivil 2025 10 15) "2025-10" [c8entry] "A"
      "T").nextEligible = daysFromCivil 2025 9 15 + 21 := by
  obtain ⟨l, hlast, hmem, hmax, hup, heq⟩ :=
    nextEligible_spec (daysFromCivil 2025 10 15) "2025-10" [c8entry] "A" "T"
      (by decide) (by decide)
  have hfl : ([c8entry].filter (fun e => e.rep = "A" ∧ e.turf = "T")) =
      [c8entry] := by decide
  rw [hfl] at hmem
  simp only [List.map_cons, List.map_nil, List.mem_singleton] at hmem
  rw [heq, hmem]
  rfl

/-! ## Claim C10 — Monday normalisation of turf entries -/

theorem lastAnyFold_mem (allEntries : List TurfEntry) (turf : String)
    {l : ℤ} :
    ∀ acc : Option ℤ × Option String,
      (allEntries.foldl
        (fun (acc : Option ℤ × Option String) e =>
          if e.turf = turf then
            match acc.1 with
            | none => (some e.date, if e.rep = "" then none else some e.rep)
            | some a =>
                if a < e.date then
                  (some e.date, if e.rep = "" then none else some e.rep)
                else acc
          else acc) acc).1 = some l →
      acc.1 = some l ∨ l ∈ allEntries.map (fun e => e.date) := by
  induction allEntries with
  | nil => intro acc h; exact Or.inl h
  | cons e tl ih =>
      intro acc h
      simp only [List.foldl_cons] at h
      by_cases ht : e.turf = turf
      · rw [if_pos ht] at h
        cases hacc : acc.1 with
        | none =>
            rw [hacc] at h
            rcases ih _ h with h1 | h1
            · simp only [] at h1
              cases h1
              exact Or.inr (by simp)
            · exact Or.inr (by simp [h1])
        | some a =>
            rw [hacc] at h
            dsimp only at h
            by_cases hlt : a < e.date
            · rw [if_pos hlt] at h
              rcases ih _ h with h1 | h1
              · simp only [] at h1
                cases h1
                exact Or.inr (by simp)
              · exact Or.inr (by simp [h1])
            · rw [if_neg hlt] at h
              rcases ih _ h with h1 | h1
              · rw [hacc] at h1
                exact Or.inl h1
              · exact Or.inr (by simp [h1])
      · rw [if_neg ht] at h
        rcases ih _ h with h1 | h1
        · exact Or.inl h1
        · exact Or.inr (by simp [h1])

/-- C10: every produced `TurfEntry` stores as its date the Monday of the
week of the parsed column-N visit date, with its week key (and month key)
derived from that Monday; consequently every last-visit date the turf
statistics derive — by this rep or by any rep — is a Monday. -/
theorem turfEntries_monday_invariant (grid : List (List String)) :
    (∀ e ∈ turfEntries grid,
        isMonday e.date ∧ e.week = weekKey e.date ∧ e.month = ym e.date ∧
        ∃ row ∈ grid, ∃ d,
          parseDDMMYYYY (jsTrim (row.getD 13 "")) = some d ∧
          e.date = mondayOfWeek d) ∧
    (∀ today tmk rep turf l,
        (calcRepTurfStats today tmk (turfEntries grid) rep turf).last =
            some l ∨
        (calcRepTurfStats today tmk (turfEntries grid) rep turf).lastAny =
            some l →
        isMonday l) := by
  have main : ∀ e ∈ turfEntries grid,
      isMonday e.date ∧ e.week = weekKey e.date ∧ e.month = ym e.date ∧
      ∃ row ∈ grid, ∃ d,
        parseDDMMYYYY (jsTrim (row.getD 13 "")) = some d ∧
        e.date = mondayOfWeek d := by
    intro e he
    unfold turfEntries at he
    split at he
    · simp at he
    · rcases List.mem_filterMap.mp he with ⟨row, hrow, hmk⟩
      have hrowg : row ∈ grid := List.mem_of_mem_drop hrow
      unfold mkTurfEntry at hmk
      split at hmk
      · cases hmk
      · dsimp only at hmk
        split at hmk
        · cases hmk
        · rename_i hlen hfields
          cases hparse : parseDDMMYYYY (jsTrim (row.getD 13 "")) with
          | none => rw [hparse] at hmk; cases hmk
          | some d =>
              rw [hparse] at hmk
              simp only [Option.some.injEq] at hmk
              subst hmk
              refine ⟨isMonday_mondayOfWeek d, ?_, rfl, row, hrowg, d, hparse,
                rfl⟩
              show weekKey (mondayOfWeek d) = weekKey (mondayOfWeek d)
              rfl
  refine ⟨main, ?_⟩
  intro today tmk rep turf l hl
  rcases hl with hl | hl
  · have hlast : (calcRepTurfStats today tmk (turfEntries grid) rep
        turf).last =
      lastDateOf ((turfEntries grid).filter
        (fun e => e.rep = rep ∧ e.turf = turf)) := rfl
    rw [hlast] at hl
    obtain ⟨hmem, -⟩ := lastDateOf_spec hl
    rcases List.mem_map.mp hmem with ⟨e, he, rfl⟩
    exact (main e (List.mem_of_mem_filter he)).1
  · have hlany : (calcRepTurfStats today tmk (turfEntries grid) rep
        turf).lastAny =
      ((turfEntries grid).foldl
        (fun (acc : Option ℤ × Option String) e =>
          if e.turf = turf then
            match acc.1 with
            | none => (some e.date, if e.rep = "" then none else some e.rep)
            | some a =>
                if a < e.date then
                  (some e.date, if e.rep = "" then none else some e.rep)
                else acc
          else acc) (none, none)).1 := rfl
    rw [hlany] at hl
    rcases lastAnyFold_mem (turfEntries grid) turf (none, none) hl with h1 | h1
    · cases h1
    · rcases List.mem_map.mp h1 with ⟨e, he, rfl⟩
      exact (main e he).1

def c10grid : List (List String) :=
  [["h", "", "", "", "", "", "", "", "", "", "", "", "Rep", "Date", "Turf",
    "Count"],
   ["", "", "", "", "", "", "", "", "", "", "", "", "Ann", "08/10/2025",
    "North", "3"]]

def c10entry : TurfEntry :=
  { rep := "Ann", turf := "North", week := "2025-10-06",
    date := daysFromCivil 2025 10 6, count := 3, month := "2025-10" }

/-- Witness: the Wednesday visit 08/10/2025 is stored as Monday 2025-10-06. -/
theorem turfEntries_monday_invariant_witness :
    isMonday c10entry.date ∧ c10entry.week = weekKey c10entry.date ∧
    c10entry ∈ turfEntries c10grid :=
  ⟨((turfEntries_monday_invariant c10grid).1 c10entry (by decide)).1,
   ((turfEntries_monday_invariant c10grid).1 c10entry (by decide)).2.1,
   by decide⟩

/-! ## Claim C4 — ranking sort orders and tie-breaks -/

section LexComparator

variable {α : Type} (k : α → ℚ) (name : α → String)

/-- The order induced by a JS comparator
`(a, b) => k(b) - k(a) || name(a).localeCompare(name(b))`. -/
def jsCmpLe (a b : α) : Prop :=
  k b < k a ∨ (k b = k a ∧ localeCompare (name a) (name b) ≤ 0)

theorem jsCmpLe_decide_iff (a b : α) :
    (decide (jsOrQ (k b - k a) ((localeCompare (name a) (name b) : ℤ) : ℚ) ≤ 0)
      = true) ↔ jsCmpLe k name a b := by
  rw [decide_eq_true_iff]
  unfold jsOrQ jsCmpLe
  by_cases h : k b - k a = 0
  · have hk : k b = k a := by linarith [h]
    rw [if_pos h]
    constructor
    · intro hle
      refine Or.inr ⟨hk, ?_⟩
      exact_mod_cast hle
    · rintro (hlt | ⟨-, hle⟩)
      · exact absurd hk (ne_of_lt hlt)
      · exact_mod_cast hle
  · rw [if_neg h]
    constructor
    · intro hle
      exact Or.inl (lt_of_le_of_ne (by linarith [hle]) (fun hh => h (by linarith [hh])))
    · rintro (hlt | ⟨heq, -⟩)
      · linarith [hlt]
      · exact absurd (by linarith [heq] : k b - k a = 0) h

theorem jsCmpLe_trans {a b c : α} (h1 : jsCmpLe k name a b)
    (h2 : jsCmpLe k name b c) : jsCmpLe k name a c := by
  rcases h1 with h1 | ⟨h1, h1n⟩ <;> rcases h2 with h2 | ⟨h2, h2n⟩
  · exact Or.inl (lt_trans h2 h1)
  · exact Or.inl (by linarith)
  · exact Or.inl (by linarith)
  · exact Or.inr ⟨h2.trans h1, localeCompare_le_trans h1n h2n⟩

theorem jsCmpLe_total (a b : α) : jsCmpLe k name a b ∨ jsCmpLe k name b a := by
  rcases lt_trichotomy (k a) (k b) with h | h | h
  · exact Or.inr (Or.inl h)
  · rcases localeCompare_total (name a) (name b) with hn | hn
    · exact Or.inl (Or.inr ⟨h.symm, hn⟩)
    · exact Or.inr (Or.inr ⟨h, hn⟩)
  · exact Or.inl (Or.inl h)

/-- The order induced by the three-level comparator of `avgRows`. -/
def jsCmpLe3 (k1 k2 : α → ℚ) (a b : α) : Prop :=
  k1 b < k1 a ∨ (k1 b = k1 a ∧
    (k2 b < k2 a ∨ (k2 b = k2 a ∧ localeCompare (name a) (name b) ≤ 0)))

theorem jsCmpLe3_decide_iff (k1 k2 : α → ℚ) (a b : α) :
    (decide (jsOrQ (k1 b - k1 a) (jsOrQ (k2 b - k2 a)
        ((localeCompare (name a) (name b) : ℤ) : ℚ)) ≤ 0) = true) ↔
      jsCmpLe3 name k1 k2 a b := by
  rw [decide_eq_true_iff]
  unfold jsOrQ jsCmpLe3
  by_cases h1 : k1 b - k1 a = 0
  · have hk1 : k1 b = k1 a := by linarith [h1]
    rw [if_pos h1]
    by_cases h2 : k2 b - k2 a = 0
    · have hk2 : k2 b = k2 a := by linarith [h2]
      rw [if_pos h2]
      constructor
      · intro hle
        exact Or.inr ⟨hk1, Or.inr ⟨hk2, by exact_mod_cast hle⟩⟩
      · rintro (hlt | ⟨-, hlt | ⟨-, hle⟩⟩)
        · exact absurd hk1 (ne_of_lt hlt)
        · exact absurd hk2 (ne_of_lt hlt)
        · exact_mod_cast hle
    · rw [if_neg h2]
      constructor
      · intro hle
        refine Or.inr ⟨hk1, Or.inl ?_⟩
        exact lt_of_le_of_ne (by linarith [hle]) (fun hh => h2 (by linarith [hh]))
      · rintro (hlt | ⟨-, hlt | ⟨heq, -⟩⟩)
        · exact absurd hk1 (ne_of_lt hlt)
        · linarith [hlt]
        · exact absurd (by linarith [heq] : k2 b - k2 a = 0) h2
  · rw [if_neg h1]
    constructor
    · intro hle
      exact Or.inl (lt_of_le_of_ne (by linarith [hle])
        (fun hh => h1 (by linarith [hh])))
    · rintro (hlt | ⟨heq, -⟩)
      · linarith [hlt]
      · exact absurd (by linarith [heq] : k1 b - k1 a = 0) h1

theorem jsCmpLe3_trans (k1 k2 : α → ℚ) {a b c : α}
    (h1 : jsCmpLe3 name k1 k2 a b) (h2 : jsCmpLe3 name k1 k2 b c) :
    jsCmpLe3 name k1 k2 a c := by
  rcases h1 with h1 | ⟨he1, h1⟩
  · rcases h2 with h2 | ⟨he2, -⟩
    · exact Or.inl (lt_trans h2 h1)
    · exact Or.inl (by linarith)
  · rcases h2 with h2 | ⟨he2, h2⟩
    · exact Or.inl (by linarith)
    · refine Or.inr ⟨he2.trans he1, ?_⟩
      rcases h1 with h1 | ⟨hf1, h1⟩
      · rcases h2 with h2 | ⟨hf2, -⟩
        · exact Or.inl (lt_trans h2 h1)
        · exact Or.inl (by linarith)
      · rcases h2 with h2 | ⟨hf2, h2⟩
        · exact Or.inl (by linarith)
        · exact Or.inr ⟨hf2.trans hf1, localeCompare_le_trans h1 h2⟩

theorem jsCmpLe3_total (k1 k2 : α → ℚ) (a b : α) :
    jsCmpLe3 name k1 k2 a b ∨ jsCmpLe3 name k1 k2 b a := by
  rcases lt_trichotomy (k1 a) (k1 b) with h | h | h
  · exact Or.inr (Or.inl h)
  · rcases lt_trichotomy (k2 a) (k2 b) with h2 | h2 | h2
    · exact Or.inr (Or.inr ⟨h, Or.inl h2⟩)
    · rcases localeCompare_total (name a) (name b) with hn | hn
      · exact Or.inl (Or.inr ⟨h.symm, Or.inr ⟨h2.symm, hn⟩⟩)
      · exact Or.inr (Or.inr ⟨h, Or.inr ⟨h2, hn⟩⟩)
    · exact Or.inl (Or.inr ⟨h.symm, Or.inl h2⟩)
  · exact Or.inl (Or.inl h)

end LexComparator

/-- C4 (amended): the rep table sorts by YTD profit descending with ties
broken only by rep name ascending (no secondary metric); the
average-profit table sorts by monthly average descending, then YTD average
descending, then rep name; the rendered product table sorts only by
historical total profit descending (ties keep the insertion order of the
product names — a stable sort with no name tie-break). -/
theorem rankings_sort_spec (ctx : AggCtx) (rows : List SalesRecord) :
    List.Pairwise (fun a b => b.yProfit < a.yProfit ∨
        (b.yProfit = a.yProfit ∧ localeCompare a.rep b.rep ≤ 0))
      (repRows ctx rows) ∧
    List.Pairwise (fun a b => b.mAvg < a.mAvg ∨ (b.mAvg = a.mAvg ∧
        (b.yAvg < a.yAvg ∨ (b.yAvg = a.yAvg ∧
          localeCompare a.rep b.rep ≤ 0))))
      (avgRows ctx rows) ∧
    List.Pairwise (fun a b => b.totalProfitAll ≤ a.totalProfitAll)
      (productRowsSorted ctx rows) := by
  refine ⟨?_, ?_, ?_⟩
  · have hs := sorted_jsSortBy leRepRow
      (fun a b c h1 h2 =>
        (jsCmpLe_decide_iff RepRow.yProfit RepRow.rep a c).mpr
          (jsCmpLe_trans _ _
            ((jsCmpLe_decide_iff RepRow.yProfit RepRow.rep a b).mp h1)
            ((jsCmpLe_decide_iff RepRow.yProfit RepRow.rep b c).mp h2)))
      (fun a b => by
        rcases jsCmpLe_total RepRow.yProfit RepRow.rep a b with h | h
        · exact Or.inl ((jsCmpLe_decide_iff RepRow.yProfit RepRow.rep a b).mpr h)
        · exact Or.inr ((jsCmpLe_decide_iff RepRow.yProfit RepRow.rep b a).mpr h))
      ((byRepOf rows).map (fun p => repAgg ctx p.1 p.2))
    exact hs.imp (fun h => (jsCmpLe_decide_iff RepRow.yProfit RepRow.rep _ _).mp h)
  · have hs := sorted_jsSortBy leAvgRow
      (fun a b c h1 h2 =>
        (jsCmpLe3_decide_iff AvgRow.rep AvgRow.mAvg AvgRow.yAvg a c).mpr
          (jsCmpLe3_trans _ _ _
            ((jsCmpLe3_decide_iff AvgRow.rep AvgRow.mAvg AvgRow.yAvg a b).mp h1)
            ((jsCmpLe3_decide_iff AvgRow.rep AvgRow.mAvg AvgRow.yAvg b c).mp h2)))
      (fun a b => by
        rcases jsCmpLe3_total AvgRow.rep AvgRow.mAvg AvgRow.yAvg a b with h | h
        · exact Or.inl
            ((jsCmpLe3_decide_iff AvgRow.rep AvgRow.mAvg AvgRow.yAvg a b).mpr h)
        · exact Or.inr
            ((jsCmpLe3_decide_iff AvgRow.rep AvgRow.mAvg AvgRow.yAvg b a).mpr h))
      ((rows.foldl (avgStep ctx) []).map (fun p =>
        let agg := p.2
        { rep := agg.rep,
          mAvg := if 0 < agg.histAllSales then
              agg.histAllProfit / (agg.histAllSales : ℚ) else 0,
          yAvg := if 0 < agg.histYtdSales then
              agg.histYtdProfit / (agg.histYtdSales : ℚ) else 0 }))
    exact hs.imp
      (fun h => (jsCmpLe3_decide_iff AvgRow.rep AvgRow.mAvg AvgRow.yAvg _ _).mp h)
  · have hs := sorted_jsSortBy
      (fun (a b : ProductRow) => decide (b.totalProfitAll ≤ a.totalProfitAll))
      (fun a b c h1 h2 => by
        rw [decide_eq_true_iff] at *
        exact le_trans h2 h1)
      (fun a b => by
        rcases le_total a.totalProfitAll b.totalProfitAll with h | h
        · exact Or.inr (by rw [decide_eq_true_iff]; exact h)
        · exact Or.inl (by rw [decide_eq_true_iff]; exact h))
      (productRows ctx rows)
    exact hs.imp (fun h => by rw [decide_eq_true_iff] at h; exact h)

def c4ctx : AggCtx :=
  { thisMonthKey := "2025-06", prevMonthKey := "2025-05",
    ytdStart := daysFromCivil 2025 1 1, ytdEnd := daysFromCivil 2025 6 30,
    contextDate := daysFromCivil 2025 6 1, live := false }

def c4rows : List SalesRecord :=
  [ { rep := "r", product := "B", date := daysFromCivil 2025 6 1,
      amount := 100, profit := 10, commission := 0 },
    { rep := "r", product := "A", date := daysFromCivil 2025 6 1,
      amount := 100, profit := 10, commission := 0 } ]

def pB4 : ProductRow :=
  { product := "B", mCount := 1, yCount := 1, totalProfitAll := 10,
    marginPctAll := 10 }

def pA4 : ProductRow :=
  { product := "A", mCount := 1, yCount := 1, totalProfitAll := 10,
    marginPctAll := 10 }

/-- C4 counterexample: two products tied on every metric are rendered in
insertion order `["B", "A"]`, not name-ascending `["A", "B"]` — the product
ranking breaks ties by neither a secondary metric nor the name. -/
theorem ranking_tiebreak_counterexample :
    (productRowsSorted c4ctx c4rows).map (fun p => p.product) = ["B", "A"] ∧
    (∀ p ∈ productRowsSorted c4ctx c4rows,
      ∀ q ∈ productRowsSorted c4ctx c4rows,
        p.totalProfitAll = q.totalProfitAll ∧ p.mCount = q.mCount ∧
        p.yCount = q.yCount ∧ p.marginPctAll = q.marginPctAll) ∧
    localeCompare "A" "B" < 0 := by
  have hpr : productRows c4ctx c4rows = [pB4, pA4] := by
    simp +decide only [productRows, productStep, c4ctx, c4rows,
      List.foldl_cons, List.foldl_nil, mapSet, mapGet, mapKeys, jsSetOf,
      setAdd, jsOrS, List.map_cons, List.map_nil, List.cons_append,
      List.nil_append, List.append_nil, Option.getD, pB4, pA4, if_true,
      if_false]
    norm_num
  have hs : productRowsSorted c4ctx c4rows = [pB4, pA4] := by
    unfold productRowsSorted
    rw [hpr]
    decide
  rw [hs]
  exact ⟨rfl, by decide, by decide⟩

/-! ## Claim C3 — the rotation guardrail

Specification side: the maximal runs of consecutive equal non-empty
territories in the scanned week sequence, and the warnings they should
produce (`streak > 2`). -/

mutual

/-- Maximal runs of consecutive equal non-empty assignments in a
(week, territory) sequence. -/
def runsOf : List (String × String) → List (String × List String)
  | [] => []
  | (w, t) :: rest => if t = "" then runsOf rest else runsCont t [w] rest

/-- Continue the run of territory `t` that already covers weeks `ws`. -/
def runsCont (t : String) (ws : List String) :
    List (String × String) → List (String × List String)
  | [] => [(t, ws)]
  | (w, u) :: rest =>
      if u = t then runsCont t (ws ++ [w]) rest
      else if u = "" then (t, ws) :: runsOf rest
      else (t, ws) :: runsCont u [w] rest

end

/-- The warning a run should produce: flagged iff longer than 2 weeks. -/
def warnOfRun (rep : String) (r : String × List String) :
    Option RotationWarning :=
  if 2 < r.2.length then some ⟨rep, r.1, r.2.length, r.2⟩ else none

/-- The week-to-territory assignment of a rep (last write per week wins, a
missing week is the empty string). -/
def assignTurf (entries : List TurfEntry) (rep w : String) : String :=
  match ((entries.filter (fun e => e.rep = rep)).filter
      (fun e => e.week = w)).getLast? with
  | some e => e.turf
  | none => ""

/-- The pair-form of one scan iteration (`scanStep` with the week's lookup
already performed). -/
def scanStepPair (rep : String) (st : ScanSt) (p : String × String) :
    ScanSt :=
  if p.2 ≠ "" ∧ p.2 = st.curTurf then
    { st with streak := st.streak + 1, streakWeeks := st.streakWeeks ++ [p.1] }
  else if p.2 ≠ "" then
    { curTurf := p.2, streak := 1, streakWeeks := [p.1],
      out := flushWarn rep st }
  else
    { curTurf := "", streak := 0, streakWeeks := [], out := flushWarn rep st }

theorem scanStep_eq_pair (rep : String) (wkMap : List (String × String))
    (st : ScanSt) (w : String) :
    scanStep rep wkMap st w =
      scanStepPair rep st (w, (mapGet w wkMap).getD "") := rfl

theorem flushWarn_of_run (rep cur : String) (ws : List String)
    (out : List RotationWarning) (h : cur ≠ "") :
    flushWarn rep ⟨cur, ws.length, ws, out⟩ =
      out ++ match warnOfRun rep (cur, ws) with
             | some x => [x]
             | none => [] := by
  unfold flushWarn warnOfRun
  by_cases hl : 2 < ws.length
  · rw [if_pos ⟨hl, h⟩, if_pos hl]
  · rw [if_neg (fun hh => hl hh.1), if_neg hl]
    simp

theorem flushWarn_of_gap (rep : String) (out : List RotationWarning) :
    flushWarn rep ⟨"", 0, [], out⟩ = out := by
  unfold flushWarn
  rw [if_neg (fun hh => hh.2 rfl)]

/-- The central loop lemma: scanning a sequence from the gap state yields
exactly the over-2-week runs; scanning from a partial-run state yields the
runs of that continued run. -/
theorem scanPair_spec (rep : String) :
    ∀ seq : List (String × String),
      (∀ out, flushWarn rep (seq.foldl (scanStepPair rep) ⟨"", 0, [], out⟩) =
          out ++ (runsOf seq).filterMap (warnOfRun rep)) ∧
      (∀ (cur : String) (ws : List String) (out), cur ≠ "" → ws ≠ [] →
        flushWarn rep (seq.foldl (scanStepPair rep)
            ⟨cur, ws.length, ws, out⟩) =
          out ++ (runsCont cur ws seq).filterMap (warnOfRun rep)) := by
  intro seq
  induction seq with
  | nil =>
      constructor
      · intro out
        simp only [List.foldl_nil, runsOf, List.filterMap_nil,
          List.append_nil]
        exact flushWarn_of_gap rep out
      · intro cur ws out hcur hws
        simp only [List.foldl_nil, runsCont, List.filterMap_cons,
          List.filterMap_nil]
        rw [flushWarn_of_run rep cur ws out hcur]
        cases warnOfRun rep (cur, ws) <;> rfl
  | cons p rest ih =>
      obtain ⟨w, u⟩ := p
      constructor
      · intro out
        simp only [List.foldl_cons]
        by_cases hu : u = ""
        · subst hu
          have hstep : scanStepPair rep ⟨"", 0, [], out⟩ (w, "") =
              ⟨"", 0, [], out⟩ := by
            unfold scanStepPair
            rw [if_neg (fun hh => hh.1 rfl), if_neg (fun hh => hh rfl),
              flushWarn_of_gap]
          rw [hstep, (ih).1 out]
          simp [runsOf]
        · have hstep : scanStepPair rep ⟨"", 0, [], out⟩ (w, u) =
              ⟨u, 1, [w], out⟩ := by
            unfold scanStepPair
            rw [if_neg (fun hh => hu (hh.2)), if_pos hu, flushWarn_of_gap]
          rw [hstep]
          have := (ih).2 u [w] out hu (by simp)
          simp only [List.length_cons, List.length_nil] at this
          rw [this]
          simp only [runsOf, if_neg hu]
      · intro cur ws out hcur hws
        simp only [List.foldl_cons]
        by_cases huc : u = cur
        · subst huc
          have hu : u ≠ "" := fun hh => hcur (hh ▸ rfl)
          have hstep : scanStepPair rep ⟨u, ws.length, ws, out⟩ (w, u) =
              ⟨u, ws.length + 1, ws ++ [w], out⟩ := by
            unfold scanStepPair
            rw [if_pos ⟨hu, rfl⟩]
          rw [hstep]
          have hlen : ws.length + 1 = (ws ++ [w]).length := by
            simp [List.length_append]
          rw [hlen]
          have := (ih).2 u (ws ++ [w]) out hu (by simp)
          rw [this]
          simp [runsCont]
        · by_cases hu : u = ""
          · subst hu
            have hstep : scanStepPair rep ⟨cur, ws.length, ws, out⟩
                (w, "") = ⟨"", 0, [],
                  flushWarn rep ⟨cur, ws.length, ws, out⟩⟩ := by
              unfold scanStepPair
              rw [if_neg (fun hh => hh.1 rfl), if_neg (fun hh => hh rfl)]
            rw [hstep, (ih).1 _, flushWarn_of_run rep cur ws out hcur]
            have hruns : runsCont cur ws ((w, "") :: rest) =
                (cur, ws) :: runsOf rest := by
              unfold runsCont
              rw [if_neg (fun hh : ("" : String) = cur => hcur hh.symm),
                if_pos rfl]
            rw [hruns, List.filterMap_cons]
            cases warnOfRun rep (cur, ws) <;> simp
          · have hstep : scanStepPair rep ⟨cur, ws.length, ws, out⟩
                (w, u) = ⟨u, 1, [w],
                  flushWarn rep ⟨cur, ws.length, ws, out⟩⟩ := by
              unfold scanStepPair
              rw [if_neg (fun hh => huc hh.2), if_pos hu]
            rw [hstep]
            have := (ih).2 u [w]
              (flushWarn rep ⟨cur, ws.length, ws, out⟩) hu (by simp)
            simp only [List.length_cons, List.length_nil] at this
            rw [this, flushWarn_of_run rep cur ws out hcur]
            simp only [runsCont, if_neg huc, if_neg hu,
              List.filterMap_cons]
            cases warnOfRun rep (cur, ws) <;> simp

/-- `scanRep` in terms of the run decomposition of the looked-up sequence. -/
theorem scanRep_eq_runs (rep : String) (wkMap : List (String × String))
    (weeks : List String) :
    scanRep rep wkMap weeks =
      (runsOf (weeks.map (fun w => (w, (mapGet w wkMap).getD "")))).filterMap
        (warnOfRun rep) := by
  unfold scanRep
  have hfold : weeks.foldl (scanStep rep wkMap) ⟨"", 0, [], []⟩ =
      (weeks.map (fun w => (w, (mapGet w wkMap).getD ""))).foldl
        (scanStepPair rep) ⟨"", 0, [], []⟩ := by
    rw [List.foldl_map]
    rfl
  rw [hfold,
    (scanPair_spec rep (weeks.map (fun w => (w, (mapGet w wkMap).getD "")))).1 []]
  rfl

theorem mem_flushWarn {rep : String} {st : ScanSt} {x : RotationWarning}
    (h : x ∈ flushWarn rep st) : x ∈ st.out ∨ x.rep = rep := by
  unfold flushWarn at h
  split at h
  · rcases List.mem_append.mp h with h | h
    · exact Or.inl h
    · rcases List.mem_singleton.mp h with rfl
      exact Or.inr rfl
  · exact Or.inl h

theorem scan_fold_out (rep : String) (wkMap : List (String × String)) :
    ∀ (weeks : List String) (st : ScanSt) (x : RotationWarning),
      x ∈ (weeks.foldl (scanStep rep wkMap) st).out →
      x ∈ st.out ∨ x.rep = rep := by
  intro weeks
  induction weeks with
  | nil => intro st x h; exact Or.inl h
  | cons w ws ih =>
      intro st x h
      simp only [List.foldl_cons] at h
      rcases ih _ x h with h2 | h2
      · rw [scanStep_eq_pair] at h2
        unfold scanStepPair at h2
        split at h2
        · exact Or.inl h2
        · split at h2
          · simp only [] at h2
            exact mem_flushWarn h2
          · simp only [] at h2
            exact mem_flushWarn h2
      · exact Or.inr h2

theorem scanRep_rep (rep : String) (wkMap : List (String × String))
    (weeks : List String) (x : RotationWarning) (h : x ∈ scanRep rep wkMap weeks) :
    x.rep = rep := by
  unfold scanRep at h
  rcases mem_flushWarn h with h2 | h2
  · rcases scan_fold_out rep wkMap weeks _ x h2 with h3 | h3
    · simp at h3
    · exact h3
  · exact h2

theorem foldl_append_map {α β : Type} (f : α → List β) (L : List α) :
    ∀ a : List β, L.foldl (fun acc p => acc ++ f p) a = a ++ (L.map f).flatten := by
  induction L with
  | nil => intro a; simp
  | cons p L ih => intro a; simp [ih, List.append_assoc]

theorem warnings_eq_flatten (today : ℤ) (entries : List TurfEntry) :
    warnings today entries =
      ((byRepWeekTurf entries).map
        (fun p => scanRep p.1 p.2 (weeksList today))).flatten := by
  unfold warnings
  rw [foldl_append_map]
  rfl

theorem filter_scan_flatten (W : List String) (rep : String) :
    ∀ L : List (String × List (String × String)), (mapKeys L).Nodup →
      ((L.map (fun p => scanRep p.1 p.2 W)).flatten).filter
          (fun x => x.rep = rep) =
        match mapGet rep L with
        | some wkMap => scanRep rep wkMap W
        | none => [] := by
  intro L
  induction L with
  | nil => intro hn; simp [mapGet]
  | cons p L ih =>
      intro hn
      obtain ⟨k, wk⟩ := p
      rw [mapKeys, List.map_cons, List.nodup_cons] at hn
      obtain ⟨hkmem, hnodup⟩ := hn
      simp only [List.map_cons, List.flatten_cons, List.filter_append,
        ih hnodup]
      by_cases hk : k = rep
      · subst hk
        have hself : (scanRep k wk W).filter (fun x => x.rep = k) =
            scanRep k wk W := by
          rw [List.filter_eq_self]
          intro x hx
          simp [scanRep_rep k wk W x hx]
        rw [hself]
        have hnone : mapGet k L = none :=
          mapGet_eq_none.mpr hkmem
        rw [hnone]
        simp only [mapGet, if_pos rfl]
        simp
      · have hblock : (scanRep k wk W).filter (fun x => x.rep = rep) = [] := by
          rw [List.filter_eq_nil_iff]
          intro x hx
          simp [scanRep_rep k wk W x hx, hk]
        rw [hblock]
        simp only [mapGet, if_neg hk]
        simp

theorem byRepWeekTurf_eq (entries : List TurfEntry) :
    byRepWeekTurf entries =
      mapFold (fun e => e.rep) (fun e b => mapSet e.week e.turf b)
        (fun _ => []) [] entries := rfl

theorem innerFold_eq (fs : List TurfEntry) :
    fs.foldl (fun b e => mapSet e.week e.turf b) [] =
      mapFold (fun e => e.week) (fun e _ => e.turf) (fun _ => "") [] fs := rfl

theorem mapGet_byRepWeekTurf (entries : List TurfEntry) (rep : String) :
    mapGet rep (byRepWeekTurf entries) =
      match entries.filter (fun e => e.rep = rep) with
      | [] => none
      | fs => some (fs.foldl (fun b e => mapSet e.week e.turf b) []) := by
  rw [byRepWeekTurf_eq]
  rw [mapGet_mapFold_of_none (fun e => e.rep)
    (fun e b => mapSet e.week e.turf b) (fun _ => []) rep entries []
    (by simp [mapGet])]
  cases h : entries.filter (fun e => e.rep = rep) with
  | nil => rfl
  | cons e0 fs => simp [List.foldl_cons]

theorem lastConstFold (rest : List TurfEntry) :
    ∀ x : String, rest.foldl (fun _ e => e.turf) x =
      match rest.getLast? with
      | some e => e.turf
      | none => x := by
  induction rest with
  | nil => intro x; rfl
  | cons e t ih =>
      intro x
      rw [List.foldl_cons, ih e.turf, List.getLast?_cons]
      cases t.getLast? <;> rfl

theorem getD_mapGet_inner (fs : List TurfEntry) (w : String) :
    (mapGet w (fs.foldl (fun b e => mapSet e.week e.turf b) [])).getD "" =
      match (fs.filter (fun e => e.week = w)).getLast? with
      | some e => e.turf
      | none => "" := by
  rw [innerFold_eq]
  rw [mapGet_mapFold_of_none (fun e => e.week) (fun e _ => e.turf)
    (fun _ => "") w fs [] (by simp [mapGet])]
  cases h : fs.filter (fun e => e.week = w) with
  | nil => rfl
  | cons e0 fs2 =>
      simp only [Option.getD_some]
      rw [lastConstFold fs2 e0.turf, List.getLast?_cons]
      cases fs2.getLast? <;> rfl

theorem runsOf_map_empty (ws : List String) :
    runsOf (ws.map (fun w => (w, ""))) = [] := by
  induction ws with
  | nil => rfl
  | cons w t ih => simp [runsOf, ih]

/-- C3: for every rep, the rotation-guardrail warnings are exactly the
maximal runs of more than 2 consecutive weeks in the same territory in the
trailing 12-week assignment, each warning reporting the territory, the
streak length and the week list; in particular one maximal 4-week run (and
no other run over 2) yields exactly one warning with streak 4. -/
theorem rotation_guardrail_spec (today : ℤ) (entries : List TurfEntry)
    (rep : String) :
    (warnings today entries).filter (fun x => x.rep = rep) =
      (runsOf ((weeksList today).map
        (fun w => (w, assignTurf entries rep w)))).filterMap
        (warnOfRun rep) := by
  have hnodup : (mapKeys (byRepWeekTurf entries)).Nodup := by
    rw [byRepWeekTurf_eq]
    exact nodup_mapKeys_mapFold _ _ _ entries
  rw [warnings_eq_flatten,
    filter_scan_flatten (weeksList today) rep (byRepWeekTurf entries) hnodup]
  cases hres : mapGet rep (byRepWeekTurf entries) with
  | none =>
      dsimp only
      rw [mapGet_byRepWeekTurf] at hres
      cases hfil : entries.filter (fun e => e.rep = rep) with
      | cons e0 fs => rw [hfil] at hres; cases hres
      | nil =>
          have hassign : ∀ w ∈ weeksList today,
              (fun w => (w, assignTurf entries rep w)) w =
                (fun w => (w, "")) w := by
            intro w hw
            unfold assignTurf
            rw [hfil]
            rfl
          rw [List.map_congr_left hassign, runsOf_map_empty]
          rfl
  | some wkMap =>
      dsimp only
      rw [scanRep_eq_runs]
      rw [mapGet_byRepWeekTurf] at hres
      cases hfil : entries.filter (fun e => e.rep = rep) with
      | nil => rw [hfil] at hres; cases hres
      | cons e0 fs =>
          rw [hfil] at hres
          simp only [Option.some.injEq] at hres
          have hassign : ∀ w ∈ weeksList today,
              (fun w => (w, (mapGet w wkMap).getD "")) w =
                (fun w => (w, assignTurf entries rep w)) w := by
            intro w hw
            simp only [Prod.mk.injEq, true_and]
            rw [← hres, getD_mapGet_inner]
            unfold assignTurf
            rw [hfil]
          rw [List.map_congr_left hassign]

/-! ## Claim C2 — the turf suggestion

Specification-side notions, following the claim's words: a rep's
territories, the year-to-date average sales per visited week, eligibility
(no visit within the cut-off), and the ranking order. -/

/-- `t` is one of `rep`'s territories. -/
def turfOfRep (entries : List TurfEntry) (rep t : String) : Prop :=
  ∃ e ∈ entries, e.rep = rep ∧ e.turf = t

/-- Year-to-date average sales per visited week of a rep's territory: the
sum of the counts of the rep's YTD entries for it, divided by the number of
distinct visited weeks (0 if none). -/
def ytdAvgSpec (today : ℤ) (entries : List TurfEntry) (rep t : String) : ℚ :=
  let es := ((entries.filter (fun e => e.rep = rep)).filter
      (fun e => e.turf = t)).filter
    (fun e => decide (startOfYear today ≤ e.date ∧ e.date ≤ today))
  let wks := (es.map (fun e => e.week)).dedup.length
  if 0 < wks then ((es.map (fun e => e.count)).sum : ℚ) / (wks : ℚ) else 0

/-- Eligibility (amended): none of the rep's visits to `t` falls after the
Monday three weeks before today's week. -/
def eligibleSpec (today : ℤ) (entries : List TurfEntry) (rep t : String) :
    Prop :=
  ∀ e ∈ entries, e.rep = rep → e.turf = t →
    e.date ≤ mondayOfWeek today - 21

/-- `t2` ranks strictly higher than `t1` for the rep: larger YTD
average-per-week, or equal average and earlier name. -/
def rankHigher (today : ℤ) (entries : List TurfEntry) (rep t2 t1 : String) :
    Prop :=
  ytdAvgSpec today entries rep t1 < ytdAvgSpec today entries rep t2 ∨
  (ytdAvgSpec today entries rep t2 = ytdAvgSpec today entries rep t1 ∧
    localeCompare t2 t1 < 0)

/-- The perf entry the suggestion loop should build for territory `t`. -/
def specPerf (today : ℤ) (entries : List TurfEntry) (rep t : String) :
    PerfEntry :=
  { turf := t, avgPerWeekYTD := ytdAvgSpec today entries rep t,
    last := lastDateOf ((entries.filter (fun e => e.rep = rep)).filter
      (fun e => e.turf = t)) }

/-- The value-update step of the per-turf aggregation map. -/
def turfAggUpd (today ytdStartNow : ℤ) (e : TurfEntry) (agg : TurfAgg) :
    TurfAgg :=
  let agg :=
    if ytdStartNow ≤ e.date ∧ e.date ≤ today then
      { agg with ytdSales := agg.ytdSales + e.count,
                 ytdWeeks := setAdd agg.ytdWeeks e.week }
    else agg
  match agg.last with
  | none => { agg with last := some e.date }
  | some a => if a < e.date then { agg with last := some e.date } else agg

theorem turfAggStep_eq_mapFold (today y0 : ℤ) (items : List TurfEntry) :
    items.foldl (turfAggStep today y0) [] =
      mapFold (fun e => e.turf) (turfAggUpd today y0)
        (fun _ => ⟨0, [], none⟩) [] items := rfl

theorem turfAggUpd_sales (today y0 : ℤ) (e : TurfEntry) (agg : TurfAgg) :
    (turfAggUpd today y0 e agg).ytdSales =
      if y0 ≤ e.date ∧ e.date ≤ today then agg.ytdSales + e.count
      else agg.ytdSales := by
  unfold turfAggUpd
  by_cases h : y0 ≤ e.date ∧ e.date ≤ today
  · simp only [if_pos h]
    cases hl : agg.last with
    | none => simp
    | some a => simp only []; split <;> simp [hl]
  · simp only [if_neg h]
    cases hl : agg.last with
    | none => simp
    | some a => simp only []; split <;> simp [hl]

theorem turfAggUpd_weeks (today y0 : ℤ) (e : TurfEntry) (agg : TurfAgg) :
    (turfAggUpd today y0 e agg).ytdWeeks =
      if y0 ≤ e.date ∧ e.date ≤ today then setAdd agg.ytdWeeks e.week
      else agg.ytdWeeks := by
  unfold turfAggUpd
  by_cases h : y0 ≤ e.date ∧ e.date ≤ today
  · simp only [if_pos h]
    cases hl : agg.last with
    | none => simp
    | some a => simp only []; split <;> simp [hl]
  · simp only [if_neg h]
    cases hl : agg.last with
    | none => simp
    | some a => simp only []; split <;> simp [hl]

theorem turfAggUpd_last (today y0 : ℤ) (e : TurfEntry) (agg : TurfAgg) :
    (turfAggUpd today y0 e agg).last =
      match agg.last with
      | none => some e.date
      | some a => if a < e.date then some e.date else some a := by
  unfold turfAggUpd
  by_cases h : y0 ≤ e.date ∧ e.date ≤ today
  · simp only [if_pos h]
    cases hl : agg.last with
    | none => simp
    | some a => simp only []; split <;> simp [hl]
  · simp only [if_neg h]
    cases hl : agg.last with
    | none => simp
    | some a => simp only []; split <;> simp [hl]

theorem aggFold_sales (today y0 : ℤ) (Fs : List TurfEntry) :
    ∀ acc : TurfAgg,
      (Fs.foldl (fun b e => turfAggUpd today y0 e b) acc).ytdSales =
        acc.ytdSales + ((Fs.filter (fun e =>
          decide (y0 ≤ e.date ∧ e.date ≤ today))).map
            (fun e => e.count)).sum := by
  induction Fs with
  | nil => intro acc; simp
  | cons e tl ih =>
      intro acc
      rw [List.foldl_cons, ih, turfAggUpd_sales]
      by_cases h : y0 ≤ e.date ∧ e.date ≤ today
      · rw [if_pos h, List.filter_cons, if_pos (by simpa using h)]
        simp [add_assoc]
      · rw [if_neg h, List.filter_cons, if_neg (by simpa using h)]

theorem aggFold_weeks (today y0 : ℤ) (Fs : List TurfEntry) :
    ∀ acc : TurfAgg,
      (Fs.foldl (fun b e => turfAggUpd today y0 e b) acc).ytdWeeks =
        ((Fs.filter (fun e =>
          decide (y0 ≤ e.date ∧ e.date ≤ today))).map
            (fun e => e.week)).foldl setAdd acc.ytdWeeks := by
  induction Fs with
  | nil => intro acc; simp
  | cons e tl ih =>
      intro acc
      rw [List.foldl_cons, ih, turfAggUpd_weeks]
      by_cases h : y0 ≤ e.date ∧ e.date ≤ today
      · rw [if_pos h, List.filter_cons, if_pos (by simpa using h),
          List.map_cons, List.foldl_cons]
      · rw [if_neg h, List.filter_cons, if_neg (by simpa using h)]

theorem aggFold_last (today y0 : ℤ) (Fs : List TurfEntry) :
    ∀ acc : TurfAgg,
      (Fs.foldl (fun b e => turfAggUpd today y0 e b) acc).last =
        Fs.foldl (fun acc e =>
          match acc with
          | none => some e.date
          | some a => if a < e.date then some e.date else some a)
          acc.last := by
  induction Fs with
  | nil => intro acc; simp
  | cons e tl ih =>
      intro acc
      rw [List.foldl_cons, ih, List.foldl_cons, turfAggUpd_last]

/-- Lookup characterisation of the per-turf aggregation map of
`turfSuggestions`. -/
theorem mapGet_turfAgg (today y0 : ℤ) (items : List TurfEntry) (t : String) :
    mapGet t (items.foldl (turfAggStep today y0) []) =
      match items.filter (fun e => e.turf = t) with
      | [] => none
      | fs => some (fs.foldl (fun b e => turfAggUpd today y0 e b)
          ⟨0, [], none⟩) := by
  rw [turfAggStep_eq_mapFold]
  rw [mapGet_mapFold_of_none (fun e => e.turf) (turfAggUpd today y0)
    (fun _ => ⟨0, [], none⟩) t items [] (by simp [mapGet])]
  cases h : items.filter (fun e => e.turf = t) with
  | nil => rfl
  | cons e0 fs => simp [List.foldl_cons]

/-- The perf record of a territory, computed against the spec notions. -/
theorem perfOfAgg_eq_specPerf (today : ℤ) (entries : List TurfEntry)
    (rep t : String) (agg : TurfAgg)
    (hagg : mapGet t ((entries.filter (fun e => e.rep = rep)).foldl
        (turfAggStep today (startOfYear today)) []) = some agg) :
    perfOfAgg t agg = specPerf today entries rep t := by
  rw [mapGet_turfAgg] at hagg
  cases hfs : (entries.filter (fun e => e.rep = rep)).filter
      (fun e => e.turf = t) with
  | nil => rw [hfs] at hagg; cases hagg
  | cons e0 fs =>
      rw [hfs] at hagg
      simp only [Option.some.injEq] at hagg
      subst hagg
      unfold perfOfAgg specPerf ytdAvgSpec
      rw [hfs]
      have hsales := aggFold_sales today (startOfYear today) (e0 :: fs)
        ⟨0, [], none⟩
      have hweeks := aggFold_weeks today (startOfYear today) (e0 :: fs)
        ⟨0, [], none⟩
      have hlast := aggFold_last today (startOfYear today) (e0 :: fs)
        ⟨0, [], none⟩
      have hwlen : (((e0 :: fs).foldl
          (fun b e => turfAggUpd today (startOfYear today) e b)
          ⟨0, [], none⟩).ytdWeeks).length =
          ((((e0 :: fs).filter (fun e =>
            decide (startOfYear today ≤ e.date ∧ e.date ≤ today))).map
              (fun e => e.week)).dedup).length := by
        rw [hweeks]
        exact length_jsSetOf_eq_dedup _
      dsimp only at hsales hweeks hlast hwlen
      simp only [PerfEntry.mk.injEq, true_and]
      constructor
      · rw [hwlen, hsales]
        simp only [zero_add]
        push_cast [List.map_map]
        rfl
      · rw [hlast]
        rfl

/-- `lePerf` is the two-level comparator order on perf entries. -/
theorem lePerf_iff (a b : PerfEntry) :
    lePerf a b = true ↔
      jsCmpLe PerfEntry.avgPerWeekYTD PerfEntry.turf a b := by
  unfold lePerf
  exact jsCmpLe_decide_iff _ _ a b

theorem lePerf_trans (a b c : PerfEntry) (h1 : lePerf a b = true)
    (h2 : lePerf b c = true) : lePerf a c = true := by
  rw [lePerf_iff] at h1 h2 ⊢
  exact jsCmpLe_trans _ _ h1 h2

theorem lePerf_total (a b : PerfEntry) :
    lePerf a b = true ∨ lePerf b a = true := by
  rw [lePerf_iff, lePerf_iff]
  exact jsCmpLe_total _ _ a b

/-- Every perf entry of the suggestion loop belongs to one of the rep's
territories and equals its spec perf record. -/
theorem perf_mem (today : ℤ) (entries : List TurfEntry) (rep : String)
    {p : PerfEntry}
    (hp : p ∈ (((entries.filter (fun e => e.rep = rep)).foldl
        (turfAggStep today (startOfYear today)) []).map
        (fun p => perfOfAgg p.1 p.2))) :
    ∃ t, turfOfRep entries rep t ∧ p = specPerf today entries rep t := by
  obtain ⟨pr, hpr, hpe⟩ := List.mem_map.mp hp
  have hnd : (mapKeys ((entries.filter (fun e => e.rep = rep)).foldl
      (turfAggStep today (startOfYear today)) [])).Nodup := by
    rw [turfAggStep_eq_mapFold]
    exact nodup_mapKeys_mapFold _ _ _ _
  have hget : mapGet pr.1 ((entries.filter (fun e => e.rep = rep)).foldl
      (turfAggStep today (startOfYear today)) []) = some pr.2 :=
    mapGet_eq_some_of_mem_of_nodup hnd (by rw [Prod.mk.eta]; exact hpr)
  have hkey : pr.1 ∈ mapKeys ((entries.filter (fun e => e.rep = rep)).foldl
      (turfAggStep today (startOfYear today)) []) :=
    List.mem_map.mpr ⟨pr, hpr, rfl⟩
  rw [turfAggStep_eq_mapFold, mem_mapKeys_mapFold] at hkey
  obtain ⟨e, he, hte⟩ := List.mem_map.mp hkey
  have hef := List.mem_filter.mp he
  refine ⟨pr.1, ⟨e, hef.1, of_decide_eq_true hef.2, hte⟩, ?_⟩
  rw [← hpe]
  exact perfOfAgg_eq_specPerf today entries rep pr.1 pr.2 hget

/-- Conversely, every territory of the rep shows up in the perf list as its
spec perf record. -/
theorem perf_covers (today : ℤ) (entries : List TurfEntry) (rep t : String)
    (h : turfOfRep entries rep t) :
    specPerf today entries rep t ∈
      (((entries.filter (fun e => e.rep = rep)).foldl
        (turfAggStep today (startOfYear today)) []).map
        (fun p => perfOfAgg p.1 p.2)) := by
  obtain ⟨e, he, hrep, hturf⟩ := h
  have hef : e ∈ (entries.filter (fun e => e.rep = rep)).filter
      (fun e => e.turf = t) :=
    List.mem_filter.mpr ⟨List.mem_filter.mpr ⟨he, decide_eq_true hrep⟩,
      decide_eq_true hturf⟩
  have hget : ∃ agg, mapGet t ((entries.filter (fun e => e.rep = rep)).foldl
      (turfAggStep today (startOfYear today)) []) = some agg := by
    rw [mapGet_turfAgg]
    cases hfs : (entries.filter (fun e => e.rep = rep)).filter
        (fun e => e.turf = t) with
    | nil => rw [hfs] at hef; cases hef
    | cons a as => exact ⟨_, rfl⟩
  obtain ⟨agg, hagg⟩ := hget
  rw [← perfOfAgg_eq_specPerf today entries rep t agg hagg]
  exact List.mem_map.mpr ⟨(t, agg), mem_of_mapGet_eq_some hagg, rfl⟩

/-- The `tooRecent` test on a territory's spec perf record decides exactly
the (amended) eligibility: some visit falls after `mondayOfWeek today - 21`. -/
theorem tooRecent_specPerf (today : ℤ) (entries : List TurfEntry)
    (rep t : String) (h : turfOfRep entries rep t) :
    tooRecent (mondayOfWeek (today - 21)) (specPerf today entries rep t) = true
      ↔ ¬ eligibleSpec today entries rep t := by
  obtain ⟨e0, he0, hrep0, hturf0⟩ := h
  have he0f : e0 ∈ (entries.filter (fun e => e.rep = rep)).filter
      (fun e => e.turf = t) :=
    List.mem_filter.mpr ⟨List.mem_filter.mpr ⟨he0, decide_eq_true hrep0⟩,
      decide_eq_true hturf0⟩
  obtain ⟨l, hl⟩ := lastDateOf_isSome (List.ne_nil_of_mem he0f)
  obtain ⟨hlm, hmax⟩ := lastDateOf_spec hl
  have hpl : (specPerf today entries rep t).last = some l := hl
  have ht : tooRecent (mondayOfWeek (today - 21))
      (specPerf today entries rep t) =
      decide (mondayOfWeek (today - 21) < l) := by
    unfold tooRecent
    rw [hpl]
  rw [ht, decide_eq_true_iff, mondayOfWeek_sub_21]
  constructor
  · intro hlt hel
    obtain ⟨e, hefs, hdate⟩ := List.mem_map.mp hlm
    have h1 := List.mem_filter.mp hefs
    have h2 := List.mem_filter.mp h1.1
    have h3 := hel e h2.1 (of_decide_eq_true h2.2) (of_decide_eq_true h1.2)
    omega
  · intro hnel
    by_contra hle
    push_neg at hle
    apply hnel
    intro e he hrep hturf
    have hefs : e ∈ (entries.filter (fun e => e.rep = rep)).filter
        (fun e => e.turf = t) :=
      List.mem_filter.mpr ⟨List.mem_filter.mpr ⟨he, decide_eq_true hrep⟩,
        decide_eq_true hturf⟩
    exact le_trans (hmax e hefs) hle

/-- `suggestFor` on a rep's rows picks an eligible territory that no
higher-ranked territory of the rep could replace, or reports "NO SUGGESTION"
when no territory is eligible. -/
theorem suggestFor_spec (today : ℤ) (entries : List TurfEntry)
    (rep : String) :
    ((turfOfRep entries rep
        (suggestFor today (entries.filter (fun e => e.rep = rep))).turf ∧
      eligibleSpec today entries rep
        (suggestFor today (entries.filter (fun e => e.rep = rep))).turf ∧
      (suggestFor today (entries.filter (fun e => e.rep = rep))).avgPerWeekYTD
        = some (ytdAvgSpec today entries rep
            (suggestFor today (entries.filter (fun e => e.rep = rep))).turf) ∧
      (suggestFor today (entries.filter (fun e => e.rep = rep))).note = none ∧
      ∀ t, turfOfRep entries rep t →
        rankHigher today entries rep t
          (suggestFor today (entries.filter (fun e => e.rep = rep))).turf →
        ¬ eligibleSpec today entries rep t) ∨
     ((suggestFor today (entries.filter (fun e => e.rep = rep))).turf =
        "NO SUGGESTION" ∧
      (suggestFor today (entries.filter (fun e => e.rep = rep))).avgPerWeekYTD
        = none ∧
      (suggestFor today (entries.filter (fun e => e.rep = rep))).note =
        some noSuggestionNote ∧
      ∀ t, turfOfRep entries rep t → ¬ eligibleSpec today entries rep t)) := by
  have hunf : suggestFor today (entries.filter (fun e => e.rep = rep)) =
      match (jsSortBy lePerf (((entries.filter (fun e => e.rep = rep)).foldl
          (turfAggStep today (startOfYear today)) []).map
          (fun p => perfOfAgg p.1 p.2))).find?
          (fun p => !tooRecent (mondayOfWeek (today - 21)) p) with
      | some p =>
          { turf := p.turf, avgPerWeekYTD := some p.avgPerWeekYTD,
            nextWeekMonday := mondayOfWeek (today + 7),
            nextRefreshMonday := mondayOfWeek (today + 14), note := none }
      | none =>
          { turf := "NO SUGGESTION", avgPerWeekYTD := none,
            nextWeekMonday := mondayOfWeek (today + 7),
            nextRefreshMonday := mondayOfWeek (today + 14),
            note := some noSuggestionNote } := rfl
  rw [hunf]
  cases hfind : (jsSortBy lePerf (((entries.filter (fun e => e.rep = rep)).foldl
      (turfAggStep today (startOfYear today)) []).map
      (fun p => perfOfAgg p.1 p.2))).find?
      (fun p => !tooRecent (mondayOfWeek (today - 21)) p) with
  | some p =>
      dsimp only
      have hpm : p ∈ (((entries.filter (fun e => e.rep = rep)).foldl
          (turfAggStep today (startOfYear today)) []).map
          (fun p => perfOfAgg p.1 p.2)) :=
        (mem_jsSortBy _).mp (List.mem_of_find?_eq_some hfind)
      obtain ⟨t, htof, hp⟩ := perf_mem today entries rep hpm
      subst hp
      have hT : (specPerf today entries rep t).turf = t := rfl
      rw [hT]
      left
      refine ⟨htof, ?_, rfl, rfl, ?_⟩
      · have hpred := List.find?_some hfind
        have htr : tooRecent (mondayOfWeek (today - 21))
            (specPerf today entries rep t) = false := by
          simpa using hpred
        by_contra hne
        have hcon := (tooRecent_specPerf today entries rep t htof).mpr hne
        rw [htr] at hcon
        cases hcon
      · intro t2 htof2 hrank
        obtain ⟨hpB, as, bs, hsplit, hall⟩ := List.find?_eq_some.mp hfind
        have hq : specPerf today entries rep t2 ∈ jsSortBy lePerf
            (((entries.filter (fun e => e.rep = rep)).foldl
              (turfAggStep today (startOfYear today)) []).map
              (fun p => perfOfAgg p.1 p.2)) :=
          (mem_jsSortBy _).mpr (perf_covers today entries rep t2 htof2)
        rw [hsplit] at hq
        rcases List.mem_append.mp hq with hq | hq
        · have h1 := hall _ hq
          have h2 : tooRecent (mondayOfWeek (today - 21))
              (specPerf today entries rep t2) = true := by
            simpa using h1
          exact (tooRecent_specPerf today entries rep t2 htof2).mp h2
        · rcases List.mem_cons.mp hq with hq | hq
          · have ht2 : t2 = t := congrArg PerfEntry.turf hq
            subst ht2
            rcases hrank with hlt | ⟨heq, hlc⟩
            · exact absurd hlt (lt_irrefl _)
            · rw [localeCompare_self] at hlc
              exact absurd hlc (by norm_num)
          · have hsorted := sorted_jsSortBy lePerf lePerf_trans lePerf_total
              (((entries.filter (fun e => e.rep = rep)).foldl
                (turfAggStep today (startOfYear today)) []).map
                (fun p => perfOfAgg p.1 p.2))
            rw [hsplit] at hsorted
            have hpair := (List.pairwise_append.mp hsorted).2.1
            have hle : lePerf (specPerf today entries rep t)
                (specPerf today entries rep t2) = true :=
              (List.pairwise_cons.mp hpair).1 _ hq
            rw [lePerf_iff] at hle
            have hA : ∀ s, (specPerf today entries rep s).avgPerWeekYTD =
                ytdAvgSpec today entries rep s := fun s => rfl
            have hT2 : ∀ s, (specPerf today entries rep s).turf = s :=
              fun s => rfl
            unfold jsCmpLe at hle
            rw [hA, hA, hT2, hT2] at hle
            rcases hle with hlt | ⟨heq, hlc⟩ <;>
              rcases hrank with hlt2 | ⟨heq2, hlc2⟩
            · exact absurd (lt_trans hlt hlt2) (lt_irrefl _)
            · rw [heq2] at hlt
              exact absurd hlt (lt_irrefl _)
            · rw [heq] at hlt2
              exact absurd hlt2 (lt_irrefl _)
            · have hcc := localeCompare_lt_of_lt_of_le hlc2 hlc
              rw [localeCompare_self] at hcc
              exact absurd hcc (by norm_num)
  | none =>
      dsimp only
      right
      refine ⟨rfl, rfl, rfl, ?_⟩
      intro t htof helig
      have hq : specPerf today entries rep t ∈ jsSortBy lePerf
          (((entries.filter (fun e => e.rep = rep)).foldl
            (turfAggStep today (startOfYear today)) []).map
            (fun p => perfOfAgg p.1 p.2)) :=
        (mem_jsSortBy _).mpr (perf_covers today entries rep t htof)
      have hn := List.find?_eq_none.mp hfind _ hq
      rcases Bool.eq_false_or_eq_true (tooRecent (mondayOfWeek (today - 21))
          (specPerf today entries rep t)) with hb | hb
      · exact (tooRecent_specPerf today entries rep t htof).mp hb helig
      · exact hn (by simp [hb])

/-- In a duplicate-free list the entries equal to a member `a` form exactly
`[a]`. -/
theorem filter_eq_singleton_of_nodup {l : List String} {a : String}
    (hn : l.Nodup) (hm : a ∈ l) : l.filter (fun x => x = a) = [a] := by
  induction l with
  | nil => cases hm
  | cons x xs ih =>
      rw [List.nodup_cons] at hn
      by_cases hx : x = a
      · subst hx
        rw [List.filter_cons, if_pos (by simp)]
        have hnil : xs.filter (fun y => y = x) = [] := by
          rw [List.filter_eq_nil_iff]
          intro b hb
          simp only [decide_eq_true_eq]
          rintro rfl
          exact hn.1 hb
        rw [hnil]
      · rw [List.filter_cons, if_neg (by simp [hx])]
        have hmm : a ∈ xs := by
          rcases List.mem_cons.mp hm with h | h
          · exact absurd h.symm hx
          · exact h
        exact ih hn.2 hmm

/-- The fallback loop appending "no data" placeholders never changes the
rows of a rep already present. -/
theorem loop2_filter (today : ℤ) (rep : String) (L : List String) :
    ∀ acc : List RepSuggestion,
      (acc.find? (fun r => r.rep = rep)).isSome = true →
      (L.foldl (fun acc rep2 =>
          if (acc.find? (fun r => r.rep = rep2)).isSome then acc
          else acc ++ [RepSuggestion.mk rep2 (noDataSuggestion today)])
        acc).filter (fun r => r.rep = rep) =
        acc.filter (fun r => r.rep = rep) := by
  induction L with
  | nil => intro acc h; rfl
  | cons r2 tl ih =>
      intro acc h
      rw [List.foldl_cons]
      by_cases hf : (acc.find? (fun r => r.rep = r2)).isSome = true
      · rw [if_pos hf]
        exact ih acc h
      · rw [if_neg hf]
        have hr2 : r2 ≠ rep := by
          rintro rfl
          exact hf h
        have h2 : ((acc ++ [RepSuggestion.mk r2 (noDataSuggestion today)]).find?
            (fun r => r.rep = rep)).isSome = true := by
          rw [List.find?_isSome] at h ⊢
          obtain ⟨x, hx, hpx⟩ := h
          exact ⟨x, List.mem_append_left _ hx, hpx⟩
        rw [ih _ h2, List.filter_append]
        have hone : [RepSuggestion.mk r2 (noDataSuggestion today)].filter
            (fun r => r.rep = rep) = [] := by
          simp [hr2]
        rw [hone, List.append_nil]

/-- For a rep with at least one entry, filtering the suggestion list to the
rep yields exactly its `suggestFor` row over its own entries. -/
theorem turfSuggestions_filter (today : ℤ) (entries : List TurfEntry)
    (rep : String) (h : ∃ e ∈ entries, e.rep = rep) :
    (turfSuggestions today entries).filter (fun r => r.rep = rep) =
      [RepSuggestion.mk rep
        (suggestFor today (entries.filter (fun e => e.rep = rep)))] := by
  obtain ⟨e0, he0, hrep0⟩ := h
  have he0f : e0 ∈ entries.filter (fun e => e.rep = rep) :=
    List.mem_filter.mpr ⟨he0, decide_eq_true hrep0⟩
  have hlook : mapGet rep (byRepTurf entries) =
      some (entries.filter (fun e => e.rep = rep)) := by
    unfold byRepTurf
    rw [mapGet_groupPush_fold (fun e => e.rep) entries rep]
    cases hfs : entries.filter (fun e => e.rep = rep) with
    | nil => rw [hfs] at he0f; cases he0f
    | cons a as => rfl
  have hkeys : rep ∈ mapKeys (byRepTurf entries) := by
    by_contra hk
    rw [mapGet_eq_none.mpr hk] at hlook
    cases hlook
  have hnd : (mapKeys (byRepTurf entries)).Nodup := by
    unfold byRepTurf
    rw [foldl_groupPush_eq_mapFold]
    exact nodup_mapKeys_mapFold _ _ _ _
  have hsknd : (jsSortBy (fun a b => decide (localeCompare a b ≤ 0))
      (mapKeys (byRepTurf entries))).Nodup :=
    ((jsSortBy_perm _ _).nodup_iff).mpr hnd
  have hskmem : rep ∈ jsSortBy (fun a b => decide (localeCompare a b ≤ 0))
      (mapKeys (byRepTurf entries)) := (mem_jsSortBy _).mpr hkeys
  have h1 : ((jsSortBy (fun a b => decide (localeCompare a b ≤ 0))
        (mapKeys (byRepTurf entries))).map (fun rep2 =>
          RepSuggestion.mk rep2 (suggestFor today
            ((mapGet rep2 (byRepTurf entries)).getD [])))).filter
        (fun r => r.rep = rep) =
      [RepSuggestion.mk rep (suggestFor today
        (entries.filter (fun e => e.rep = rep)))] := by
    rw [List.filter_map]
    have hcomp : ((fun r : RepSuggestion => decide (r.rep = rep)) ∘
        (fun rep2 => RepSuggestion.mk rep2 (suggestFor today
          ((mapGet rep2 (byRepTurf entries)).getD [])))) =
        fun x => decide (x = rep) := rfl
    rw [hcomp, filter_eq_singleton_of_nodup hsknd hskmem]
    simp only [List.map_cons, List.map_nil, hlook, Option.getD_some]
  have h2 : (((jsSortBy (fun a b => decide (localeCompare a b ≤ 0))
        (mapKeys (byRepTurf entries))).map (fun rep2 =>
          RepSuggestion.mk rep2 (suggestFor today
            ((mapGet rep2 (byRepTurf entries)).getD [])))).find?
        (fun r => r.rep = rep)).isSome = true := by
    rw [List.find?_isSome]
    refine ⟨RepSuggestion.mk rep (suggestFor today
      ((mapGet rep (byRepTurf entries)).getD [])),
      List.mem_map.mpr ⟨rep, hskmem, rfl⟩, ?_⟩
    simp
  have h3 := loop2_filter today rep (allRepsFromM entries) _ h2
  have hunf : turfSuggestions today entries =
      jsSortBy (fun a b => decide (localeCompare a.rep b.rep ≤ 0))
        ((allRepsFromM entries).foldl
          (fun acc rep2 =>
            if (acc.find? (fun r => r.rep = rep2)).isSome then acc
            else acc ++ [RepSuggestion.mk rep2 (noDataSuggestion today)])
          ((jsSortBy (fun a b => decide (localeCompare a b ≤ 0))
            (mapKeys (byRepTurf entries))).map (fun rep2 =>
              RepSuggestion.mk rep2 (suggestFor today
                ((mapGet rep2 (byRepTurf entries)).getD []))))) := rfl
  rw [hunf]
  refine List.perm_singleton.mp ?_
  refine ((jsSortBy_perm _ _).filter _).trans ?_
  rw [h3, h1]

/-- **C2** (corrected). For every rep with at least one turf entry, the
suggestion list carries exactly one row for the rep, and that row either
names one of the rep's territories that is eligible - no visit by the rep
after `mondayOfWeek today - 21` - together with its YTD average sales per
visited week and no note, such that every territory ranked strictly higher
(larger YTD average per week, or equal average and lexicographically earlier
name) is ineligible; or is the "NO SUGGESTION" marker with the explanatory
note and no average, in which case none of the rep's territories is
eligible. -/
theorem turf_suggestion_spec (today : ℤ) (entries : List TurfEntry)
    (rep : String) (h : ∃ e ∈ entries, e.rep = rep) :
    ∃ s : RepSuggestion,
      (turfSuggestions today entries).filter (fun r => r.rep = rep) = [s] ∧
      s.rep = rep ∧
      ((turfOfRep entries rep s.suggestion.turf ∧
        eligibleSpec today entries rep s.suggestion.turf ∧
        s.suggestion.avgPerWeekYTD =
          some (ytdAvgSpec today entries rep s.suggestion.turf) ∧
        s.suggestion.note = none ∧
        ∀ t, turfOfRep entries rep t →
          rankHigher today entries rep t s.suggestion.turf →
          ¬ eligibleSpec today entries rep t) ∨
       (s.suggestion.turf = "NO SUGGESTION" ∧
        s.suggestion.avgPerWeekYTD = none ∧
        s.suggestion.note = some noSuggestionNote ∧
        ∀ t, turfOfRep entries rep t →
          ¬ eligibleSpec today entries rep t)) := by
  refine ⟨RepSuggestion.mk rep
    (suggestFor today (entries.filter (fun e => e.rep = rep))),
    turfSuggestions_filter today entries rep h, rfl, ?_⟩
  exact suggestFor_spec today entries rep

def c2today : ℤ := daysFromCivil 2025 10 13

def c2entry : TurfEntry :=
  { rep := "A", turf := "T", week := "2025-09-22",
    date := daysFromCivil 2025 9 22, count := 1, month := "2025-09" }

def c2rows : List TurfEntry := [c2entry]

/-- Witness for C2: a concrete rep with one entry gets exactly one
suggestion row. -/
theorem turf_suggestion_spec_witness :
    (∃ e ∈ c2rows, e.rep = "A") ∧
    ∃ s : RepSuggestion,
      (turfSuggestions c2today c2rows).filter (fun r => r.rep = "A") = [s] ∧
      s.rep = "A" := by
  obtain ⟨s, h1, h2, -⟩ := turf_suggestion_spec c2today c2rows "A" (by decide)
  exact ⟨by decide, s, h1, h2⟩

/-- **C2** counterexample to the claim's eligibility wording: on Monday
2025-10-13, a territory whose last (and only) visit is exactly 21 days old -
hence NOT "more than 3 weeks (21 days) before today" - is nevertheless
suggested, because the code's cut-off is `mondayOfWeek(today - 21)`, which
admits a visit exactly 21 days old whenever today is a Monday. -/
theorem turf_suggestion_counterexample :
    isMonday c2today ∧
    c2today - c2entry.date = 21 ∧
    ¬ (21 < c2today - c2entry.date) ∧
    (turfSuggestions c2today c2rows).map
      (fun r => (r.rep, r.suggestion.turf)) = [("A", "T")] := by
  refine ⟨by decide, by decide, by decide, ?_⟩
  rfl

end IrqDash
